import Mathlib

/-!
Verification of the fish-feeder firmware scheduling core
(`src/feeding_schedule.cpp`, `src/main.cpp`, `src/feeding_controller.cpp`,
`src/config.cpp`, `src/ntp_sync.cpp`).

The firmware stores instants as Adafruit RTClib `DateTime` values.  The first
section embeds RTClib calendar arithmetic (field storage, `date2days`,
`unixtime()`, the `DateTime(uint32_t)` constructor and the field-lexicographic
comparison operators), since the scheduling code depends on these semantics.
Machine integers are modelled as `Nat`; the uint16/uint32 quantities involved
never overflow for the in-range dates (years 2000..2099) that the theorems
quantify over, and the few places where C unsigned wrap-around could differ
from `Nat` truncation are noted at the definitions.
-/

namespace FishFeeder

/-- Model of an RTClib `DateTime`: the six stored calendar fields.
`year` is the absolute year (the library stores `yOff = year - 2000`). -/
structure DateTime where
  year : Nat
  month : Nat
  day : Nat
  hour : Nat
  minute : Nat
  second : Nat
deriving DecidableEq, Repr

/-- RTClib `daysInMonth` table (1-indexed month, non-leap year).
Months 0 and above 12 are outside the C array; the C loop never reads them
for the in-range days produced by `yearSplit`. -/
def daysInMonthTab (m : Nat) : Nat :=
  match m with
  | 1 => 31 | 2 => 28 | 3 => 31 | 4 => 30 | 5 => 31 | 6 => 30
  | 7 => 31 | 8 => 31 | 9 => 30 | 10 => 31 | 11 => 30 | 12 => 31
  | _ => 0

/-- Sum of `daysInMonthTab` over months `1..m-1`
(the `for (i = 1; i < m; ++i)` loop in RTClib `date2days`). -/
def monthsBefore : Nat → Nat
  | 0 => 0
  | m + 1 => monthsBefore m + daysInMonthTab m

/-- 1 for a leap year offset (`yOff % 4 == 0`, exact for 2000..2099), else 0. -/
def leapOf (y : Nat) : Nat := if y % 4 = 0 then 1 else 0

/-- Length of month `m` in a year with leap indicator `leap`. -/
def monthLen (leap m : Nat) : Nat := daysInMonthTab m + (if m = 2 then leap else 0)

/-- RTClib `date2days(yOff, m, d)`: days since 2000-01-01 (day 0).
uint16 in C; it does not overflow for years 2000..2099.  `y` is `yOff`. -/
def date2days (y m d : Nat) : Nat :=
  d + monthsBefore m + (if 2 < m ∧ y % 4 = 0 then 1 else 0) + 365 * y + (y + 3) / 4 - 1

/-- RTClib `unixtime()`:
`((days*24 + hh)*60 + mm)*60 + ss + SECONDS_FROM_1970_TO_2000`. -/
def DateTime.unixtime (t : DateTime) : Nat :=
  ((date2days (t.year - 2000) t.month t.day * 24 + t.hour) * 60 + t.minute) * 60
    + t.second + 946684800

/-- RTClib `DateTime::operator<`: lexicographic comparison of the six fields. -/
def dtLt (a b : DateTime) : Prop :=
  a.year < b.year ∨ (a.year = b.year ∧ (a.month < b.month ∨ (a.month = b.month ∧
    (a.day < b.day ∨ (a.day = b.day ∧ (a.hour < b.hour ∨ (a.hour = b.hour ∧
      (a.minute < b.minute ∨ (a.minute = b.minute ∧ a.second < b.second)))))))))

instance (a b : DateTime) : Decidable (dtLt a b) := by
  unfold dtLt; infer_instance

/-- RTClib `operator>`. -/
def dtGt (a b : DateTime) : Prop := dtLt b a

/-- RTClib `operator<=` (defined as `!(right < *this)` in the library). -/
def dtLe (a b : DateTime) : Prop := ¬ dtLt b a

/-- RTClib `operator>=` (defined as `!(*this < right)` in the library). -/
def dtGe (a b : DateTime) : Prop := ¬ dtLt a b

instance (a b : DateTime) : Decidable (dtGt a b) := by unfold dtGt; infer_instance

instance (a b : DateTime) : Decidable (dtLe a b) := by unfold dtLe; infer_instance

instance (a b : DateTime) : Decidable (dtGe a b) := by unfold dtGe; infer_instance

/-- Year-extraction loop of the RTClib `DateTime(uint32_t)` constructor,
with an explicit fuel so that it is structurally recursive (each loop
iteration of the C code consumes at least 365 days, so a fuel of `days`
is never exhausted; `yearSplit_eq` below recovers the loop equation). -/
def yearSplitGo (fuel y days : Nat) : Nat × Nat :=
  match fuel with
  | 0 => (y, days)
  | fuel + 1 =>
    if days < 365 + leapOf y then (y, days)
    else yearSplitGo fuel (y + 1) (days - (365 + leapOf y))

/-- Year-extraction loop: starting from year offset `y`, peel off
`365 + leap` days per year. -/
def yearSplit (y days : Nat) : Nat × Nat := yearSplitGo days y days

/-- Month-extraction loop of `DateTime(uint32_t)`, walking the month table. -/
def monthSplitGo (m days : Nat) : List Nat → Nat × Nat
  | [] => (m, days)
  | len :: rest => if days < len then (m, days) else monthSplitGo (m + 1) (days - len) rest

/-- The twelve month lengths for leap indicator `leap`
(RTClib adds the leap day to February only). -/
def monthTable (leap : Nat) : List Nat :=
  [31, 28 + leap, 31, 30, 31, 30, 31, 31, 30, 31, 30, 31]

/-- RTClib `DateTime(uint32_t t)` constructor.  The C code computes
`t -= SECONDS_FROM_1970_TO_2000` on uint32; every use in this development has
`t ≥ 946684800`, where `Nat` subtraction agrees with the C value. -/
def DateTime.ofUnix (t : Nat) : DateTime :=
  let t0 := t - 946684800
  let ss := t0 % 60
  let t1 := t0 / 60
  let mm := t1 % 60
  let t2 := t1 / 60
  let hh := t2 % 24
  let days := t2 / 24
  let ys := yearSplit 0 days
  let ms := monthSplitGo 1 ys.2 (monthTable (leapOf ys.1))
  ⟨2000 + ys.1, ms.1, ms.2 + 1, hh, mm, ss⟩

/-- A `DateTime` whose fields denote a real calendar instant in the range the
firmware works with (RTClib year range starts at 2000). -/
def ValidDate (t : DateTime) : Prop :=
  2000 ≤ t.year ∧ 1 ≤ t.month ∧ t.month ≤ 12 ∧ 1 ≤ t.day ∧
  t.day ≤ monthLen (leapOf (t.year - 2000)) t.month ∧
  t.hour < 24 ∧ t.minute < 60 ∧ t.second < 60

instance (t : DateTime) : Decidable (ValidDate t) := by
  unfold ValidDate; infer_instance

/-! ### Calendar arithmetic lemmas for the RTClib model -/

/-- Closed form for the days in year offsets `[0, y)` under the RTClib leap
rule: `365 * y + (y + 3) / 4`. -/
def totalD (y : Nat) : Nat := 365 * y + (y + 3) / 4

/-- Days in the `n` consecutive year offsets starting at `a`. -/
def spanD (a : Nat) : Nat → Nat
  | 0 => 0
  | n + 1 => (365 + leapOf a) + spanD (a + 1) n

/-- Seconds elapsed since the stored date's midnight. -/
def secOfDay (t : DateTime) : Nat := 3600 * t.hour + 60 * t.minute + t.second

/-! ### Embedding of `src/feeding_schedule.cpp`

State and operations of the `FeedingSchedule` class.  External collaborators
are modelled as parameters: the RTC clock value is passed as `now`, and the
outcome of `FeedingController::dispenseFoodAsync` as a boolean oracle
(`dispenseOk`).  The ESP32 `Preferences` NVRAM namespace is modelled as a
string-keyed store; `persistenceInitialized` is taken to be true (the
not-initialized branches of the C code only skip the NVRAM traffic). -/

/-- `ScheduledFeeding` (`config.h`): uint8 time/portion fields, enabled flag,
and a 50-byte description buffer (at most 49 characters). -/
structure ScheduledFeeding where
  hour : Nat
  minute : Nat
  second : Nat
  portions : Nat
  enabled : Bool
  description : String
deriving DecidableEq, Repr

/-- A value stored by ESP32 `Preferences` (typed entries). -/
inductive KVVal where
  | uc : Nat → KVVal
  | b : Bool → KVVal
  | s : String → KVVal
  | u32 : Nat → KVVal
deriving DecidableEq, Repr

/-- The `Preferences` namespace as a partial map from keys to typed values. -/
def KVStore : Type := String → Option KVVal

def kvPut (st : KVStore) (k : String) (v : KVVal) : KVStore :=
  fun q => if q = k then some v else st q

/-- `getUChar(key, default)`: default on a missing or differently-typed entry. -/
def kvGetUChar (st : KVStore) (k : String) (dflt : Nat) : Nat :=
  match st k with
  | some (KVVal.uc n) => n
  | _ => dflt

def kvGetBool (st : KVStore) (k : String) (dflt : Bool) : Bool :=
  match st k with
  | some (KVVal.b v) => v
  | _ => dflt

def kvGetString (st : KVStore) (k : String) (dflt : String) : String :=
  match st k with
  | some (KVVal.s v) => v
  | _ => dflt

def kvGetU32 (st : KVStore) (k : String) (dflt : Nat) : Nat :=
  match st k with
  | some (KVVal.u32 v) => v
  | _ => dflt

/-- The `FeedingSchedule` object state (`feeding_schedule.h`).
`schedules` is `scheduleStorage[0..scheduleCount)`. -/
structure FeedingSchedule where
  schedules : List ScheduledFeeding
  scheduleEnabled : Bool
  lastCompletedFeeding : DateTime
  feedingInProgress : Bool
  nextScheduledTime : DateTime
  nextScheduleIndex : Nat
  toleranceMinutes : Nat
  maxRecoveryHours : Nat
  kv : KVStore

/-- `DateTime()` — the RTClib default-constructed value
(`SECONDS_FROM_1970_TO_2000`), i.e. 2000-01-01 00:00:00.  The source uses
this expression in `executeFeeding` under the comment `// Current time`. -/
def dtDefault : DateTime := ⟨2000, 1, 1, 0, 0, 0⟩

/-- The far-future sentinel `DateTime(2099, 12, 31, 23, 59, 59)` used by
`calculateNextFeeding`. -/
def sentinel2099 : DateTime := ⟨2099, 12, 31, 23, 59, 59⟩

/-- `FeedingSchedule::getScheduleDateTime`. -/
def getScheduleDateTime (s : ScheduledFeeding) (referenceDate : DateTime) : DateTime :=
  ⟨referenceDate.year, referenceDate.month, referenceDate.day, s.hour, s.minute, s.second⟩

/-- NVRAM key `"s" + i + "_" + tag` used for schedule record fields. -/
def schedKey (i : Nat) (tag : String) : String := "s" ++ toString i ++ "_" ++ tag

/-- The six `Preferences` writes for one schedule record in
`saveSchedulesToNVRAM`. -/
def putEntry (st : KVStore) (i : Nat) (e : ScheduledFeeding) : KVStore :=
  let st := kvPut st (schedKey i "h") (KVVal.uc e.hour)
  let st := kvPut st (schedKey i "m") (KVVal.uc e.minute)
  let st := kvPut st (schedKey i "s") (KVVal.uc e.second)
  let st := kvPut st (schedKey i "p") (KVVal.uc e.portions)
  let st := kvPut st (schedKey i "en") (KVVal.b e.enabled)
  kvPut st (schedKey i "desc") (KVVal.s e.description)

/-- The per-record loop of `saveSchedulesToNVRAM`, writing indices from `i` up. -/
def saveEntriesFrom (st : KVStore) (i : Nat) : List ScheduledFeeding → KVStore
  | [] => st
  | e :: rest => saveEntriesFrom (putEntry st i e) (i + 1) rest

/-- `FeedingSchedule::saveSchedulesToNVRAM`: store the count, then each record. -/
def saveSchedulesToNVRAM (st : KVStore) (l : List ScheduledFeeding) : KVStore :=
  saveEntriesFrom (kvPut st "sched_count" (KVVal.uc l.length)) 0 l

/-- One record read in `loadSchedulesFromNVRAM` (defaults 0/0/0/1/true/"",
description truncated by `strncpy(..., 49)`). -/
def readEntry (st : KVStore) (i : Nat) : ScheduledFeeding :=
  { hour := kvGetUChar st (schedKey i "h") 0
    minute := kvGetUChar st (schedKey i "m") 0
    second := kvGetUChar st (schedKey i "s") 0
    portions := kvGetUChar st (schedKey i "p") 1
    enabled := kvGetBool st (schedKey i "en") true
    description := (kvGetString st (schedKey i "desc") "").take 49 }

/-- `DEFAULT_FEEDING_SCHEDULE` (`config.cpp`). -/
def defaultSchedules : List ScheduledFeeding :=
  [⟨8, 0, 0, 2, true, "Morning feeding"⟩,
   ⟨12, 0, 0, 1, true, "Midday feeding"⟩,
   ⟨18, 0, 0, 2, true, "Evening feeding"⟩]

/-- Table produced by `FeedingSchedule::loadSchedulesFromNVRAM`: the stored
count (255 = absent) selects defaults, an over-limit count selects defaults,
otherwise the records are read back.  (In the source the result is written
into `scheduleStorage` and `calculateNextFeeding` is then invoked; this
definition captures the reconstructed table.) -/
def loadSchedulesFromNVRAM (st : KVStore) : List ScheduledFeeding :=
  let storedCount := kvGetUChar st "sched_count" 255
  if storedCount = 255 then defaultSchedules
  else if storedCount > 10 then defaultSchedules
  else (List.range storedCount).map (readEntry st)

/-- Body of the first (today) loop of `calculateNextFeeding`: an enabled
entry whose instant lies strictly after `now` and strictly below the best so
far replaces the accumulator. -/
def calcTodayStep (now todayBase : DateTime) (acc : DateTime × Nat)
    (ie : Nat × ScheduledFeeding) : DateTime × Nat :=
  if ie.2.enabled then
    let schedTime := getScheduleDateTime ie.2 todayBase
    if dtGt schedTime now ∧ dtLt schedTime acc.1 then (schedTime, ie.1) else acc
  else acc

/-- Body of the fallback (tomorrow) loop of `calculateNextFeeding`. -/
def calcTomorrowStep (tomorrowBase : DateTime) (acc : DateTime × Nat)
    (ie : Nat × ScheduledFeeding) : DateTime × Nat :=
  if ie.2.enabled then
    let schedTime := getScheduleDateTime ie.2 tomorrowBase
    if dtLt schedTime acc.1 then (schedTime, ie.1) else acc
  else acc

/-- `FeedingSchedule::calculateNextFeeding`.  The current RTC reading is the
`now` parameter (the source fetches it from the RTC module).  First loop:
enabled entries at today's date strictly after `now`; fallback loop (entered
when the sentinel year 2099 survives): enabled entries at
`DateTime(year, month, day + 1, ...)` — the day field is incremented without
calendar normalization, exactly as in the source. -/
def calculateNextFeeding (fs : FeedingSchedule) (now : DateTime) : FeedingSchedule :=
  if fs.schedules.length = 0 then
    { fs with nextScheduledTime := sentinel2099, nextScheduleIndex := 0 }
  else
    let todayBase : DateTime := ⟨now.year, now.month, now.day, 0, 0, 0⟩
    let tomorrowBase : DateTime := ⟨now.year, now.month, now.day + 1, 0, 0, 0⟩
    let p1 := fs.schedules.enum.foldl (calcTodayStep now todayBase) (sentinel2099, 0)
    let p2 :=
      if p1.1.year = 2099 then fs.schedules.enum.foldl (calcTomorrowStep tomorrowBase) p1
      else p1
    { fs with nextScheduledTime := p2.1, nextScheduleIndex := p2.2 }

/-- Next candidate of one entry in `updateNextScheduledTime`: today's
instant, advanced by one day when it has already passed. -/
def updCandidate (currentTime : DateTime) (s : ScheduledFeeding) : DateTime :=
  let cand0 : DateTime :=
    ⟨currentTime.year, currentTime.month, currentTime.day, s.hour, s.minute, s.second⟩
  if dtLe cand0 currentTime then DateTime.ofUnix (cand0.unixtime + 86400) else cand0

/-- Body of the loop of `updateNextScheduledTime`. -/
def updStep (currentTime : DateTime) (acc : DateTime) (s : ScheduledFeeding) : DateTime :=
  if s.enabled then
    (if dtLt (updCandidate currentTime s) acc then updCandidate currentTime s else acc)
  else acc

/-- `FeedingSchedule::updateNextScheduledTime`.  A candidate that already
passed today is advanced by `TimeSpan(1, 0, 0, 0)`, which RTClib implements
as `DateTime(unixtime() + 86400)` (a normalized calendar date). -/
def updateNextScheduledTime (fs : FeedingSchedule) (currentTime : DateTime) : FeedingSchedule :=
  let nextFeeding :=
    fs.schedules.foldl (updStep currentTime) (⟨2099, 1, 1, 0, 0, 0⟩ : DateTime)
  if 2099 ≤ nextFeeding.year then { fs with nextScheduledTime := ⟨2000, 1, 1, 0, 0, 0⟩ }
  else { fs with nextScheduledTime := nextFeeding }

/-- `FeedingSchedule::isTimeForFeeding`: enabled and within 60 seconds of
today's instant.  The C `(long)(uint32 - uint32)` difference equals the true
signed difference here because the two instants share a calendar day. -/
def isTimeForFeeding (currentTime : DateTime) (s : ScheduledFeeding) : Bool :=
  s.enabled &&
    decide ((((currentTime.unixtime : Int) -
      ((getScheduleDateTime s
        ⟨currentTime.year, currentTime.month, currentTime.day, 0, 0, 0⟩).unixtime : Int)).natAbs)
        ≤ 60)

/-- `FeedingSchedule::executeFeeding`: start the dispense (flag set only on
success), then record `lastCompletedFeeding = DateTime()` — the RTClib
default 2000-01-01 00:00:00, not the clock — and persist it
(`saveLastFeedingToNVRAM` stores the unixtime under `"last_feeding"`).
`dispenseOk` is the outcome of `FeedingController::dispenseFoodAsync`. -/
def executeFeeding (fs : FeedingSchedule) (dispenseOk : Bool) : FeedingSchedule :=
  let fs1 := if dispenseOk then { fs with feedingInProgress := true } else fs
  { fs1 with
    lastCompletedFeeding := dtDefault,
    kv := kvPut fs1.kv "last_feeding" (KVVal.u32 dtDefault.unixtime) }

/-- The per-entry eligibility test inside the day loop of
`recoverMissedFeedings`: enabled, occurrence strictly before `currentTime`,
strictly after `lastCompletedFeeding`, and `1 < minutesPast ≤ tolerance`
where `minutesPast = (now - occurrence) / 60` in whole minutes. -/
def eligibleMissed (currentTime lastCompleted : DateTime) (tol : Nat)
    (checkDate : DateTime) (s : ScheduledFeeding) : Bool :=
  s.enabled &&
    (let schedTime := getScheduleDateTime s checkDate
     decide (¬ dtGe schedTime currentTime) &&
     decide (¬ dtLe schedTime lastCompleted) &&
     (let minutesPast := (currentTime.unixtime - schedTime.unixtime) / 60
      decide (1 < minutesPast) && decide (minutesPast ≤ tol)))

/-- The inner `for` loop of `recoverMissedFeedings` over the table for one
`checkDate`: first eligible entry, with its occurrence instant. -/
def dayScan (currentTime lastCompleted : DateTime) (tol : Nat) (checkDate : DateTime) :
    List ScheduledFeeding → Option (ScheduledFeeding × DateTime)
  | [] => none
  | s :: rest =>
    if eligibleMissed currentTime lastCompleted tol checkDate s
    then some (s, getScheduleDateTime s checkDate)
    else dayScan currentTime lastCompleted tol checkDate rest

/-- The `while (checkDate < searchEnd)` loop of `recoverMissedFeedings`,
stepping `checkDate = DateTime(checkDate.unixtime() + 86400)` per iteration.
The C loop gains exactly 86400 seconds of `unixtime` per step (the constructor
inverts `unixtime`, `ofUnix_spec`), so it runs at most
`(end - start) / 86400 + 1` times; `fuel` is instantiated with that bound. -/
def recoverScan (fuel : Nat) (currentTime lastCompleted : DateTime) (tol : Nat)
    (sch : List ScheduledFeeding) (checkDate : DateTime) :
    Option (ScheduledFeeding × DateTime) :=
  match fuel with
  | 0 => none
  | fuel + 1 =>
    if dtLt checkDate currentTime then
      match dayScan currentTime lastCompleted tol checkDate sch with
      | some hit => some hit
      | none => recoverScan fuel currentTime lastCompleted tol sch
          (DateTime.ofUnix (checkDate.unixtime + 86400))
    else none

/-- `FeedingSchedule::recoverMissedFeedings`: clamp the scan start to
`max(lastCompletedFeeding, DateTime(now.unixtime() - maxRecoveryHours*3600))`,
walk day by day, and on the first eligible occurrence call `executeFeeding`
and return.  The result carries the dispatched entry and its occurrence
instant (`none` when nothing was recovered).  `searchStartOf` is the clamped
scan start `max(lastCompletedFeeding, now - maxRecoveryHours*3600)`. -/
def searchStartOf (fs : FeedingSchedule) (currentTime : DateTime) : DateTime :=
  let maxLookback := DateTime.ofUnix (currentTime.unixtime - fs.maxRecoveryHours * 3600)
  if dtLt fs.lastCompletedFeeding maxLookback then maxLookback
  else fs.lastCompletedFeeding

/-- Day count covering the scan window `[searchStart, currentTime)` in steps
of 86400 seconds: the loop's iteration bound. -/
def recoveryFuel (fs : FeedingSchedule) (currentTime : DateTime) : Nat :=
  (currentTime.unixtime - (searchStartOf fs currentTime).unixtime) / 86400 + 1

def recoverMissedFeedings (fs : FeedingSchedule) (currentTime : DateTime)
    (dispenseOk : Bool) : FeedingSchedule × Option (ScheduledFeeding × DateTime) :=
  match recoverScan (recoveryFuel fs currentTime) currentTime fs.lastCompletedFeeding
      fs.toleranceMinutes fs.schedules (searchStartOf fs currentTime) with
  | some hit => (executeFeeding fs dispenseOk, some hit)
  | none => (fs, none)

/-- All occurrences the recovery filter accepts over the scanned window, in
scan order, with no early exit: the specification-side companion of
`recoverScan` used to state that only the first of them is dispatched. -/
def eligibleOccurrences (fuel : Nat) (currentTime lastCompleted : DateTime) (tol : Nat)
    (sch : List ScheduledFeeding) (checkDate : DateTime) :
    List (ScheduledFeeding × DateTime) :=
  match fuel with
  | 0 => []
  | fuel + 1 =>
    if dtLt checkDate currentTime then
      (sch.filter (eligibleMissed currentTime lastCompleted tol checkDate)).map
          (fun s => (s, getScheduleDateTime s checkDate))
        ++ eligibleOccurrences fuel currentTime lastCompleted tol sch
            (DateTime.ofUnix (checkDate.unixtime + 86400))
    else []

/-- An all-zero `ScheduledFeeding`, the content of a cleared storage slot
(`memset` in the constructor and in `removeSchedule`). -/
def emptySlot : ScheduledFeeding := ⟨0, 0, 0, 0, false, ""⟩

/-- `FeedingSchedule::processSchedules`: the per-tick entry point.  The guard
on `modules`/controller presence is external wiring and taken as satisfied.
`dispenseOk1`/`dispenseOk2` are the dispense outcomes for a recovery dispatch
and for an on-time dispatch within this tick. -/
def processSchedules (fs : FeedingSchedule) (currentTime : DateTime)
    (dispenseOk1 dispenseOk2 : Bool) : FeedingSchedule :=
  if ¬ fs.scheduleEnabled ∨ fs.schedules.length = 0 then fs
  else if fs.feedingInProgress then fs
  else
    let fs1 := (recoverMissedFeedings fs currentTime dispenseOk1).1
    let fs2 :=
      if isTimeForFeeding currentTime (fs1.schedules.getD fs1.nextScheduleIndex emptySlot)
      then calculateNextFeeding (executeFeeding fs1 dispenseOk2) currentTime
      else fs1
    updateNextScheduledTime fs2 currentTime

/-- `FeedingSchedule::addSchedule` (capacity 10; validates
`hour ≤ 23`, `minute ≤ 59`, `second ≤ 59`, `portions ∈ [1, 10]`; the new
entry is enabled; description truncated to 49 characters; persists and
recomputes the next feeding). -/
def addSchedule (fs : FeedingSchedule) (now : DateTime) (hour minute second portions : Nat)
    (description : String) : FeedingSchedule × Bool :=
  if 10 ≤ fs.schedules.length then (fs, false)
  else if 23 < hour ∨ 59 < minute ∨ 59 < second ∨ portions < 1 ∨ 10 < portions then (fs, false)
  else
    let l := fs.schedules ++ [⟨hour, minute, second, portions, true, description.take 49⟩]
    (calculateNextFeeding { fs with schedules := l, kv := saveSchedulesToNVRAM fs.kv l } now,
      true)

/-- `FeedingSchedule::editSchedule` (same validation; the enabled flag of the
record is left as it was). -/
def editSchedule (fs : FeedingSchedule) (now : DateTime) (index hour minute second portions : Nat)
    (description : String) : FeedingSchedule × Bool :=
  if fs.schedules.length ≤ index then (fs, false)
  else if 23 < hour ∨ 59 < minute ∨ 59 < second ∨ portions < 1 ∨ 10 < portions then (fs, false)
  else
    let old := fs.schedules.getD index emptySlot
    let l := fs.schedules.set index
      ⟨hour, minute, second, portions, old.enabled, description.take 49⟩
    (calculateNextFeeding { fs with schedules := l, kv := saveSchedulesToNVRAM fs.kv l } now,
      true)

/-- `FeedingSchedule::removeSchedule`: shift the tail down one slot and clear
the vacated slot (`List.eraseIdx`), persist, recompute. -/
def removeSchedule (fs : FeedingSchedule) (now : DateTime) (index : Nat) :
    FeedingSchedule × Bool :=
  if fs.schedules.length ≤ index then (fs, false)
  else
    let l := fs.schedules.eraseIdx index
    (calculateNextFeeding { fs with schedules := l, kv := saveSchedulesToNVRAM fs.kv l } now,
      true)

/-- `FeedingSchedule::enableScheduleAtIndex`: toggle one record, persist,
recompute.  Out-of-range indices leave the state unchanged. -/
def enableScheduleAtIndex (fs : FeedingSchedule) (now : DateTime) (index : Nat)
    (enabled : Bool) : FeedingSchedule :=
  if fs.schedules.length ≤ index then fs
  else
    let old := fs.schedules.getD index emptySlot
    let l := fs.schedules.set index { old with enabled := enabled }
    calculateNextFeeding { fs with schedules := l, kv := saveSchedulesToNVRAM fs.kv l } now

/-- `FeedingSchedule::enableSchedule` (whole-table flag): recomputes the next
feeding only when enabling; disabling changes the flag alone. -/
def enableSchedule (fs : FeedingSchedule) (now : DateTime) (enabled : Bool) : FeedingSchedule :=
  let fs1 := { fs with scheduleEnabled := enabled }
  if enabled then calculateNextFeeding fs1 now else fs1

/-- `FeedingSchedule::setTolerance`: assigns unconditionally (no validation
in the method itself). -/
def setTolerance (fs : FeedingSchedule) (toleranceMinutes : Nat) : FeedingSchedule :=
  { fs with toleranceMinutes := toleranceMinutes }

/-- `FeedingSchedule::setMaxRecoveryHours`: assigns unconditionally. -/
def setMaxRecoveryHours (fs : FeedingSchedule) (maxHours : Nat) : FeedingSchedule :=
  { fs with maxRecoveryHours := maxHours }

/-- `FeedingSchedule::recordManualFeeding`. -/
def recordManualFeeding (fs : FeedingSchedule) (feedingTime : DateTime) : FeedingSchedule :=
  { fs with
    lastCompletedFeeding := feedingTime,
    kv := kvPut fs.kv "last_feeding" (KVVal.u32 feedingTime.unixtime) }

/-- `SCHEDULE TOLERANCE <n>` handler in `command_listener.cpp`: the parsed
integer is accepted only in `1..120`; otherwise an error is printed and the
setter is not called. -/
def consoleToleranceCommand (fs : FeedingSchedule) (tolerance : Int) : FeedingSchedule :=
  if 0 < tolerance ∧ tolerance ≤ 120 then setTolerance fs tolerance.toNat else fs

/-- `SCHEDULE RECOVERY <n>` handler in `command_listener.cpp` (`1..72`). -/
def consoleRecoveryCommand (fs : FeedingSchedule) (recovery : Int) : FeedingSchedule :=
  if 0 < recovery ∧ recovery ≤ 72 then setMaxRecoveryHours fs recovery.toNat else fs

/-- `POST /api/schedule/tolerance` handler in `wifi_controller.cpp`: rejects
(HTTP 400, `false` here) outside `1..120`, otherwise applies the setter. -/
def apiSetTolerance (fs : FeedingSchedule) (minutes : Int) : FeedingSchedule × Bool :=
  if minutes < 1 ∨ 120 < minutes then (fs, false)
  else (setTolerance fs minutes.toNat, true)

/-- `POST /api/schedule/recovery` handler in `wifi_controller.cpp` (`1..72`). -/
def apiSetRecovery (fs : FeedingSchedule) (hours : Int) : FeedingSchedule × Bool :=
  if hours < 1 ∨ 72 < hours then (fs, false)
  else (setMaxRecoveryHours fs hours.toNat, true)

/-! ### Embedding of `src/ntp_sync.cpp` (sync predicate and RTC update paths)

Network I/O, HTTP string scanning and the `tm`-struct conversion are outside
the model; the functions below take the already-obtained `DateTime` values,
which is where the claims about these functions live. -/

/-- `NTPSync::isRTCValid`: false when a field reads zero or the timestamp is
before 2000-01-01 UTC. -/
def isRTCValid (rtcNow : DateTime) : Bool :=
  if rtcNow.year = 0 ∨ rtcNow.month = 0 ∨ rtcNow.day = 0 then false
  else if rtcNow.unixtime < 946684800 then false
  else true

/-- `NTPSync::isRTCOutdated`: year before 2020. -/
def isRTCOutdated (rtcNow : DateTime) : Bool :=
  decide (rtcNow.year < 2020)

/-- `NTPSync::shouldSyncNTP`.  `lastSync` is `lastSyncTimestampNVRAM`; the
unsigned comparison in the source turns a clock reading behind the persisted
timestamp into an immediate sync. -/
def shouldSyncNTP (rtcNow : DateTime) (lastSync syncIntervalMs : Nat) : Bool :=
  if ¬ isRTCValid rtcNow then true
  else if isRTCOutdated rtcNow then true
  else if lastSync = 0 then true
  else if lastSync ≤ rtcNow.unixtime then
    if syncIntervalMs / 1000 ≤ rtcNow.unixtime - lastSync then true else false
  else true

/-- `NTPSync::updateRTCFromNTP`, RTC-update step (lines 434–446): the RTC is
rewritten only when `abs(int32_t(ntp - rtc)) > 2` seconds.  The result is the
RTC value after the call.  (The uint32 subtraction reinterpreted as int32
equals the true signed difference for the 2000–2099 instants the theorems
range over.) -/
def updateRTCFromNTP (rtcTime ntpTime : DateTime) : DateTime :=
  if 2 < ((ntpTime.unixtime : Int) - (rtcTime.unixtime : Int)).natAbs then ntpTime
  else rtcTime

set_option linter.unusedVariables false in
/-- `NTPSync::getTimeFromWorldTimeAPI`, RTC-update step (lines 886–890): once
the `datetime` field parses, the code calls `rtc->adjust(dt)` with no delta
guard — the RTC always takes the fetched value.  The same unconditional
`adjust` appears in `getTimeFromTimeAPI` (line 951), `getTimeFromWorldClockAPI`
(line 1109) and `setTimeFromUnixTimestamp` (line 1161). -/
def worldTimeAPIAdjust (rtcTime parsedTime : DateTime) : DateTime :=
  parsedTime

/-! ### Embedding of `startFeeding` (`src/main.cpp`) and
`FeedingController::dispenseFoodAsync` (`src/feeding_controller.cpp`) -/

/-- `MIN_FOOD_PORTIONS` (`config.cpp`). -/
def minFoodPortions : Nat := 1

/-- `MAX_FOOD_PORTIONS` (`config.cpp`). -/
def maxFoodPortions : Nat := 20

/-- `STEPS_PER_REVOLUTION` (`config.cpp`). -/
def stepsPerRevolution : Nat := 2048

/-- `tFeedingMonitor` interval from its declaration
`Task tFeedingMonitor(100, TASK_FOREVER, ...)` in `main.cpp`. -/
def feedingMonitorIntervalMs : Nat := 100

/-- `clampPortions` (`config.cpp`). -/
def clampPortions (portions : Nat) : Nat :=
  if portions < minFoodPortions then minFoodPortions
  else if maxFoodPortions < portions then maxFoodPortions
  else portions

/-- `isValidPortionCount` (`config.cpp`). -/
def isValidPortionCount (portions : Nat) : Bool :=
  decide (minFoodPortions ≤ portions ∧ portions ≤ maxFoodPortions)

/-- `portionsToSteps` (`config.cpp`): `portions * FOOD_PORTION_ROTATION *
STEPS_PER_REVOLUTION` with `FOOD_PORTION_ROTATION = 1.0f`; the float product
is exact for the uint8 portion counts involved. -/
def portionsToSteps (portions : Nat) : Nat :=
  clampPortions portions * stepsPerRevolution

/-- State touched by `startFeeding`: the `ModuleManager` shared feeding flag,
the completion-poll task, the controller readiness, and the stepper target.
The portion counts reaching the controller are uint8, hence `Nat`. -/
structure FeederSystem where
  feedingInProgress : Bool
  monitorEnabled : Bool
  controllerInitialized : Bool
  motorReady : Bool
  motorPosition : Nat
  motorTarget : Nat

/-- `FeedingController::isReady`: initialized and motor ready (the motor
reference exists whenever `begin()` succeeded). -/
def controllerIsReady (sys : FeederSystem) : Bool :=
  sys.controllerInitialized && sys.motorReady

/-- `FeedingController::dispenseFoodAsync`: validates initialization and the
portion count, then starts the asynchronous move
`moveToPositionAsync(currentPos + portionsToSteps(portions))`. -/
def dispenseFoodAsync (sys : FeederSystem) (portions : Nat) : FeederSystem × Bool :=
  if ¬ sys.controllerInitialized then (sys, false)
  else if ¬ isValidPortionCount portions then (sys, false)
  else ({ sys with motorTarget := sys.motorPosition + portionsToSteps portions }, true)

/-- `startFeeding(portions, recordInSchedule)` (`main.cpp` lines 779–824):
reject out-of-range portions, an in-progress feeding, or a not-ready
controller; on a successful dispense set the shared flag, enable the 100 ms
monitor task, and optionally record a manual feeding at the RTC time `now`. -/
def startFeeding (sys : FeederSystem) (sched : FeedingSchedule) (now : DateTime)
    (portions : Nat) (recordInSchedule : Bool) :
    FeederSystem × FeedingSchedule × Bool :=
  if portions < minFoodPortions ∨ maxFoodPortions < portions then (sys, sched, false)
  else if sys.feedingInProgress then (sys, sched, false)
  else if ¬ controllerIsReady sys then (sys, sched, false)
  else
    match dispenseFoodAsync sys portions with
    | (sys1, true) =>
      ({ sys1 with feedingInProgress := true, monitorEnabled := true },
        if recordInSchedule then recordManualFeeding sched now else sched, true)
    | (sys1, false) => (sys1, sched, false)

/-! ### Specification-side next-occurrence definitions (the claim wording) -/

/-- The specification's per-entry next occurrence as an instant: today at the
entry's hour/minute/second if that is strictly after `now`, else tomorrow. -/
def specNextInstant (now : DateTime) (s : ScheduledFeeding) : Nat :=
  if (getScheduleDateTime s ⟨now.year, now.month, now.day, 0, 0, 0⟩).unixtime ≤ now.unixtime
  then (getScheduleDateTime s ⟨now.year, now.month, now.day, 0, 0, 0⟩).unixtime + 86400
  else (getScheduleDateTime s ⟨now.year, now.month, now.day, 0, 0, 0⟩).unixtime

/-- The next-occurrence instants of all enabled entries. -/
def enabledInstants (now : DateTime) (l : List ScheduledFeeding) : List Nat :=
  (l.filter (fun s => s.enabled)).map (specNextInstant now)

/-- `v` is the minimum of `l`. -/
def IsMinOf (v : Nat) (l : List Nat) : Prop := v ∈ l ∧ ∀ u ∈ l, v ≤ u

/-- Validity of a schedule entry's time fields (what `addSchedule` and
`editSchedule` accept). -/
def ValidEntry (s : ScheduledFeeding) : Prop :=
  s.hour ≤ 23 ∧ s.minute ≤ 59 ∧ s.second ≤ 59

instance (s : ScheduledFeeding) : Decidable (ValidEntry s) := by
  unfold ValidEntry; infer_instance

/-! ### Concrete states for counterexamples and witnesses -/

/-- An empty NVRAM namespace. -/
def kvEmpty : KVStore := fun _ => none

/-- A running state with the compiled-in default table and default
tolerance/recovery configuration. -/
def stateDefaults : FeedingSchedule :=
  { schedules := defaultSchedules, scheduleEnabled := true,
    lastCompletedFeeding := ⟨2024, 6, 14, 18, 0, 0⟩, feedingInProgress := false,
    nextScheduledTime := dtDefault, nextScheduleIndex := 0,
    toleranceMinutes := 30, maxRecoveryHours := 12, kv := kvEmpty }

/-- The table reduced to a single 10:30 entry with `toleranceMinutes = 120`
and `maxRecoveryHours = 1` (both inside their documented ranges). -/
def stateRecovery : FeedingSchedule :=
  { schedules := [⟨10, 30, 0, 2, true, ""⟩], scheduleEnabled := true,
    lastCompletedFeeding := ⟨2024, 6, 14, 18, 0, 0⟩, feedingInProgress := false,
    nextScheduledTime := dtDefault, nextScheduleIndex := 0,
    toleranceMinutes := 120, maxRecoveryHours := 1, kv := kvEmpty }

/-- A table whose only entry is disabled. -/
def stateDisabled : FeedingSchedule :=
  { schedules := [⟨12, 0, 0, 1, false, ""⟩], scheduleEnabled := true,
    lastCompletedFeeding := ⟨2024, 6, 14, 18, 0, 0⟩, feedingInProgress := false,
    nextScheduledTime := dtDefault, nextScheduleIndex := 0,
    toleranceMinutes := 30, maxRecoveryHours := 12, kv := kvEmpty }

/-- An empty table, for building states by mutation. -/
def stateEmpty : FeedingSchedule :=
  { schedules := [], scheduleEnabled := true,
    lastCompletedFeeding := dtDefault, feedingInProgress := false,
    nextScheduledTime := dtDefault, nextScheduleIndex := 0,
    toleranceMinutes := 30, maxRecoveryHours := 12, kv := kvEmpty }

/-- A ready controller with the motor idle at position 0. -/
def sysReady : FeederSystem :=
  { feedingInProgress := false, monitorEnabled := false, controllerInitialized := true,
    motorReady := true, motorPosition := 0, motorTarget := 0 }

/-! ### C10: NVRAM round-trip -/

/-- The six field tags used by the per-record NVRAM keys. -/
def tagList : List String := ["h", "m", "s", "p", "en", "desc"]

/-! ### C2: next occurrence after mutations -/

instance (v : Nat) (l : List Nat) : Decidable (IsMinOf v l) := by
  unfold IsMinOf
  infer_instance

theorem spanD_succ_right (n : Nat) : ∀ a, spanD a (n + 1) = spanD a n + (365 + leapOf (a + n)) := by
  induction n with
  | zero => intro a; simp [spanD]
  | succ n ih =>
    intro a
    show (365 + leapOf a) + spanD (a + 1) (n + 1) = _
    rw [ih (a + 1)]
    have hx : a + 1 + n = a + (n + 1) := by omega
    rw [hx]
    simp [spanD]
    omega

theorem spanD_zero_eq (y : Nat) : spanD 0 y = totalD y := by
  induction y with
  | zero => simp [spanD, totalD]
  | succ y ih =>
    rw [spanD_succ_right, ih]
    unfold totalD leapOf
    by_cases h : y % 4 = 0 <;> simp [h] <;> omega

theorem yearSplitGo_step (days y : Nat) : ∀ f, days ≤ f → yearSplitGo f y days =
    (if days < 365 + leapOf y then (y, days)
     else yearSplitGo (f - 1) (y + 1) (days - (365 + leapOf y))) := by
  intro f hf
  match f with
  | 0 =>
    have hd : days = 0 := by omega
    subst hd
    have hc : (0 : Nat) < 365 + leapOf y := by omega
    simp [yearSplitGo, hc]
  | f + 1 =>
    simp [yearSplitGo]

theorem yearSplitGo_fuel_irrel (days : Nat) : ∀ f1 f2 y, days ≤ f1 → days ≤ f2 →
    yearSplitGo f1 y days = yearSplitGo f2 y days := by
  induction days using Nat.strong_induction_on with
  | _ days ih =>
    intro f1 f2 y h1 h2
    rw [yearSplitGo_step days y f1 h1, yearSplitGo_step days y f2 h2]
    by_cases hc : days < 365 + leapOf y
    · rw [if_pos hc, if_pos hc]
    · rw [if_neg hc, if_neg hc]
      have hlt : days - (365 + leapOf y) < days := by omega
      exact ih _ hlt (f1 - 1) (f2 - 1) (y + 1) (by omega) (by omega)

/-- The loop equation of the year-extraction recursion. -/
theorem yearSplit_eq (y days : Nat) : yearSplit y days =
    (if days < 365 + leapOf y then (y, days)
     else yearSplit (y + 1) (days - (365 + leapOf y))) := by
  unfold yearSplit
  rw [yearSplitGo_step days y days (Nat.le_refl days)]
  by_cases hc : days < 365 + leapOf y
  · rw [if_pos hc, if_pos hc]
  · rw [if_neg hc, if_neg hc]
    exact yearSplitGo_fuel_irrel _ _ _ _ (by omega) (by omega)

theorem yearSplit_add (n : Nat) : ∀ a r, r < 365 + leapOf (a + n) →
    yearSplit a (spanD a n + r) = (a + n, r) := by
  induction n with
  | zero =>
    intro a r h
    have h0 : r < 365 + leapOf a := by simpa using h
    rw [yearSplit_eq]
    simp only [spanD, Nat.zero_add, Nat.add_zero]
    rw [if_pos h0]
  | succ n ih =>
    intro a r h
    rw [yearSplit_eq]
    have hge : ¬ (spanD a (n + 1) + r < 365 + leapOf a) := by
      simp only [spanD]; omega
    rw [if_neg hge]
    have hstep : spanD a (n + 1) + r - (365 + leapOf a) = spanD (a + 1) n + r := by
      simp only [spanD]; omega
    have h1 : r < 365 + leapOf (a + 1 + n) := by
      have : a + 1 + n = a + (n + 1) := by omega
      rw [this]; exact h
    rw [hstep, ih (a + 1) r h1]
    have hx : a + 1 + n = a + (n + 1) := by omega
    rw [hx]

theorem yearSplit_sound (days : Nat) : ∀ a, a ≤ (yearSplit a days).1 ∧
    (yearSplit a days).2 < 365 + leapOf (yearSplit a days).1 ∧
    spanD a ((yearSplit a days).1 - a) + (yearSplit a days).2 = days := by
  induction days using Nat.strong_induction_on with
  | _ days ih =>
    intro a
    rw [yearSplit_eq]
    by_cases h : days < 365 + leapOf a
    · rw [if_pos h]
      simp [spanD]
      exact h
    · rw [if_neg h]
      have hlt : days - (365 + leapOf a) < days := by
        have : 1 ≤ 365 + leapOf a := by omega
        omega
      obtain ⟨h1, h2, h3⟩ := ih (days - (365 + leapOf a)) hlt (a + 1)
      refine ⟨by omega, h2, ?_⟩
      set p := yearSplit (a + 1) (days - (365 + leapOf a)) with hp
      have hd : p.1 - a = (p.1 - (a + 1)) + 1 := by omega
      rw [hd]
      have : spanD a (p.1 - (a + 1) + 1) = (365 + leapOf a) + spanD (a + 1) (p.1 - (a + 1)) := by
        simp [spanD]
      rw [this]
      omega

theorem sum_take_succ_getD (l : List Nat) : ∀ k, k < l.length →
    (l.take (k + 1)).sum = (l.take k).sum + l.getD k 0 := by
  induction l with
  | nil => intro k h; simp at h
  | cons x xs ih =>
    intro k h
    cases k with
    | zero => simp
    | succ k =>
      simp only [List.take_succ_cons, List.sum_cons, List.getD_cons_succ]
      rw [ih k (by simpa using h)]
      omega

theorem sum_take_le (l : List Nat) (k : Nat) : (l.take k).sum ≤ l.sum := by
  conv_rhs => rw [← List.take_append_drop k l]
  rw [List.sum_append]
  omega

theorem sum_take_mono (l : List Nat) : ∀ j k, j ≤ k → (l.take j).sum ≤ (l.take k).sum := by
  induction l with
  | nil => intro j k h; simp
  | cons x xs ih =>
    intro j k h
    cases j with
    | zero => simp
    | succ j =>
      cases k with
      | zero => omega
      | succ k =>
        simp only [List.take_succ_cons, List.sum_cons]
        have := ih j k (by omega)
        omega

theorem monthSplitGo_take (l : List Nat) : ∀ k m r, k < l.length → r < l.getD k 0 →
    monthSplitGo m ((l.take k).sum + r) l = (m + k, r) := by
  induction l with
  | nil => intro k m r h; simp at h
  | cons x xs ih =>
    intro k m r hk hr
    cases k with
    | zero =>
      simp only [List.take_zero, List.sum_nil, Nat.zero_add]
      simp only [List.getD_cons_zero] at hr
      simp [monthSplitGo, hr]
    | succ k =>
      have hk1 : k < xs.length := by simpa using hk
      have hr1 : r < xs.getD k 0 := by simpa using hr
      have hsum : ((x :: xs).take (k + 1)).sum + r = x + ((xs.take k).sum + r) := by
        simp only [List.take_succ_cons, List.sum_cons]
        omega
      rw [hsum, monthSplitGo]
      have hge : ¬ (x + ((xs.take k).sum + r) < x) := by omega
      rw [if_neg hge]
      have hs : x + ((xs.take k).sum + r) - x = (xs.take k).sum + r := by omega
      rw [hs, ih k (m + 1) r hk1 hr1]
      have hm : m + 1 + k = m + (k + 1) := by omega
      rw [hm]

theorem exists_take_decomp (l : List Nat) : ∀ days, days < l.sum →
    ∃ k, k < l.length ∧ ∃ r, r < l.getD k 0 ∧ days = (l.take k).sum + r := by
  induction l with
  | nil => intro days h; simp at h
  | cons x xs ih =>
    intro days h
    by_cases hx : days < x
    · exact ⟨0, by simp, days, by simpa using hx, by simp⟩
    · simp only [List.sum_cons] at h
      obtain ⟨k, hk, r, hr, he⟩ := ih (days - x) (by omega)
      exact ⟨k + 1, by simpa using hk, r, by simpa using hr, by
        simp only [List.take_succ_cons, List.sum_cons]
        omega⟩

theorem monthTable_sum (leap : Nat) : (monthTable leap).sum = 365 + leap := by
  simp [monthTable]
  omega

theorem monthTable_length (leap : Nat) : (monthTable leap).length = 12 := by
  simp [monthTable]

theorem monthTable_take (leap m : Nat) (h1 : 1 ≤ m) (h2 : m ≤ 12) :
    ((monthTable leap).take (m - 1)).sum = monthsBefore m + (if 2 < m then leap else 0) := by
  interval_cases m <;>
    simp [monthTable, monthsBefore, daysInMonthTab] <;> omega

theorem monthTable_getD (leap m : Nat) (h1 : 1 ≤ m) (h2 : m ≤ 12) :
    (monthTable leap).getD (m - 1) 0 = monthLen leap m := by
  interval_cases m <;> simp [monthTable, monthLen, daysInMonthTab]

theorem date2days_decomp (y m d : Nat) (h1 : 1 ≤ m) (h2 : m ≤ 12) (h3 : 1 ≤ d) :
    date2days y m d = totalD y + ((monthTable (leapOf y)).take (m - 1)).sum + (d - 1) := by
  rw [monthTable_take _ _ h1 h2]
  unfold date2days totalD leapOf
  by_cases h4 : y % 4 = 0 <;> by_cases h5 : 2 < m <;> simp [h4, h5] <;> omega

theorem unixtime_decomp (t : DateTime) :
    t.unixtime = 946684800 + 86400 * date2days (t.year - 2000) t.month t.day
      + (3600 * t.hour + 60 * t.minute + t.second) := by
  unfold DateTime.unixtime
  ring

/-- Bound on the in-year part of `date2days` for a valid date. -/
theorem take_add_day_lt (leap m d : Nat) (h1 : 1 ≤ m) (h2 : m ≤ 12)
    (h3 : 1 ≤ d) (h4 : d ≤ monthLen leap m) :
    ((monthTable leap).take (m - 1)).sum + (d - 1) < 365 + leap := by
  have hg : (monthTable leap).getD (m - 1) 0 = monthLen leap m := monthTable_getD leap m h1 h2
  have hlen : m - 1 < (monthTable leap).length := by rw [monthTable_length]; omega
  have hsucc : ((monthTable leap).take (m - 1 + 1)).sum
      = ((monthTable leap).take (m - 1)).sum + (monthTable leap).getD (m - 1) 0 :=
    sum_take_succ_getD _ _ hlen
  have hle : ((monthTable leap).take (m - 1 + 1)).sum ≤ (monthTable leap).sum :=
    sum_take_le _ _
  rw [monthTable_sum] at hle
  omega

theorem ofUnix_spec (t : Nat) (ht : 946684800 ≤ t) :
    (DateTime.ofUnix t).unixtime = t ∧ ValidDate (DateTime.ofUnix t) := by
  have hker : DateTime.ofUnix t =
      ⟨2000 + (yearSplit 0 ((t - 946684800) / 60 / 60 / 24)).1,
       (monthSplitGo 1 (yearSplit 0 ((t - 946684800) / 60 / 60 / 24)).2
         (monthTable (leapOf (yearSplit 0 ((t - 946684800) / 60 / 60 / 24)).1))).1,
       (monthSplitGo 1 (yearSplit 0 ((t - 946684800) / 60 / 60 / 24)).2
         (monthTable (leapOf (yearSplit 0 ((t - 946684800) / 60 / 60 / 24)).1))).2 + 1,
       (t - 946684800) / 60 / 60 % 24,
       (t - 946684800) / 60 % 60,
       (t - 946684800) % 60⟩ := rfl
  rw [hker]
  obtain ⟨-, hp2, hp3⟩ := yearSplit_sound ((t - 946684800) / 60 / 60 / 24) 0
  rw [Nat.sub_zero] at hp3
  generalize hP : yearSplit 0 ((t - 946684800) / 60 / 60 / 24) = p at hp2 hp3 ⊢
  obtain ⟨k, hk, r, hr, hdec⟩ := exists_take_decomp (monthTable (leapOf p.1)) p.2
    (by rw [monthTable_sum]; exact hp2)
  rw [monthTable_length] at hk
  have hq : monthSplitGo 1 p.2 (monthTable (leapOf p.1)) = (1 + k, r) := by
    rw [hdec]
    exact monthSplitGo_take _ k 1 r (by rw [monthTable_length]; exact hk) hr
  rw [hq]
  have hgd : (monthTable (leapOf p.1)).getD k 0 = monthLen (leapOf p.1) (1 + k) := by
    have h12 := monthTable_getD (leapOf p.1) (1 + k) (by omega) (by omega)
    simpa using h12
  rw [hgd] at hr
  constructor
  · rw [unixtime_decomp]
    dsimp only
    have hyoff : 2000 + p.1 - 2000 = p.1 := by omega
    rw [hyoff]
    rw [date2days_decomp p.1 (1 + k) (r + 1) (by omega) (by omega) (by omega)]
    have hk1 : 1 + k - 1 = k := by omega
    rw [hk1, ← spanD_zero_eq]
    have hinner : spanD 0 p.1 + ((monthTable (leapOf p.1)).take k).sum + (r + 1 - 1)
        = (t - 946684800) / 60 / 60 / 24 := by omega
    rw [hinner]
    omega
  · unfold ValidDate
    refine ⟨by dsimp only; omega, by dsimp only; omega, by dsimp only; omega,
      by dsimp only; omega, ?_, by dsimp only; omega, by dsimp only; omega,
      by dsimp only; omega⟩
    dsimp only
    have hyoff : 2000 + p.1 - 2000 = p.1 := by omega
    rw [hyoff]
    omega

theorem totalD_gap (y1 y2 : Nat) (h : y1 < y2) : totalD y1 + 365 + leapOf y1 ≤ totalD y2 := by
  unfold totalD leapOf
  by_cases h4 : y1 % 4 = 0 <;> simp [h4] <;> omega

theorem date2days_day_succ (y m d : Nat) (hd : 1 ≤ d) :
    date2days y m (d + 1) = date2days y m d + 1 := by
  unfold date2days
  omega

theorem date2days_mono (y1 m1 d1 y2 m2 d2 : Nat)
    (hm1 : 1 ≤ m1) (hm1b : m1 ≤ 12) (hd1 : 1 ≤ d1) (hd1b : d1 ≤ monthLen (leapOf y1) m1)
    (hm2 : 1 ≤ m2) (hm2b : m2 ≤ 12) (hd2 : 1 ≤ d2)
    (hlex : y1 < y2 ∨ (y1 = y2 ∧ (m1 < m2 ∨ (m1 = m2 ∧ d1 < d2)))) :
    date2days y1 m1 d1 < date2days y2 m2 d2 := by
  rw [date2days_decomp y1 m1 d1 hm1 hm1b hd1, date2days_decomp y2 m2 d2 hm2 hm2b hd2]
  have hbound1 : ((monthTable (leapOf y1)).take (m1 - 1)).sum + (d1 - 1) < 365 + leapOf y1 :=
    take_add_day_lt (leapOf y1) m1 d1 hm1 hm1b hd1 hd1b
  rcases hlex with hy | ⟨hy, hm | ⟨hm, hd⟩⟩
  · have hgap := totalD_gap y1 y2 hy
    omega
  · subst hy
    have hsucc : ((monthTable (leapOf y1)).take (m1 - 1 + 1)).sum
        = ((monthTable (leapOf y1)).take (m1 - 1)).sum + (monthTable (leapOf y1)).getD (m1 - 1) 0 :=
      sum_take_succ_getD _ _ (by rw [monthTable_length]; omega)
    have hgd : (monthTable (leapOf y1)).getD (m1 - 1) 0 = monthLen (leapOf y1) m1 :=
      monthTable_getD _ m1 hm1 hm1b
    have hmono : ((monthTable (leapOf y1)).take (m1 - 1 + 1)).sum
        ≤ ((monthTable (leapOf y1)).take (m2 - 1)).sum :=
      sum_take_mono _ _ _ (by omega)
    omega
  · subst hy; subst hm
    omega

theorem unixtime_lt_of_dtLt (a b : DateTime) (ha : ValidDate a) (hb : ValidDate b)
    (h : dtLt a b) : a.unixtime < b.unixtime := by
  obtain ⟨ha1, ha2, ha3, ha4, ha5, ha6, ha7, ha8⟩ := ha
  obtain ⟨hb1, hb2, hb3, hb4, hb5, hb6, hb7, hb8⟩ := hb
  have key : (a.year < b.year ∨ (a.year = b.year ∧ (a.month < b.month ∨
      (a.month = b.month ∧ a.day < b.day)))) ∨
      (a.year = b.year ∧ a.month = b.month ∧ a.day = b.day ∧ secOfDay a < secOfDay b) := by
    unfold dtLt at h
    unfold secOfDay
    omega
  rw [unixtime_decomp a, unixtime_decomp b]
  rcases key with hlex | ⟨hy, hm, hd, hs⟩
  · have hdd : date2days (a.year - 2000) a.month a.day < date2days (b.year - 2000) b.month b.day := by
      apply date2days_mono _ _ _ _ _ _ ha2 ha3 ha4 ha5 hb2 hb3 hb4
      omega
    have hsec : 3600 * a.hour + 60 * a.minute + a.second < 86400 := by omega
    omega
  · have hdd : date2days (a.year - 2000) a.month a.day = date2days (b.year - 2000) b.month b.day := by
      rw [hy, hm, hd]
    unfold secOfDay at hs
    omega

theorem dtLt_trichotomy (a b : DateTime) : dtLt a b ∨ a = b ∨ dtLt b a := by
  obtain ⟨a1, a2, a3, a4, a5, a6⟩ := a
  obtain ⟨b1, b2, b3, b4, b5, b6⟩ := b
  simp only [dtLt, DateTime.mk.injEq]
  omega

theorem dtLt_irrefl (a : DateTime) (h : dtLt a a) : False := by
  unfold dtLt at h
  omega

theorem dtLt_iff_unixtime_lt (a b : DateTime) (ha : ValidDate a) (hb : ValidDate b) :
    dtLt a b ↔ a.unixtime < b.unixtime := by
  constructor
  · exact unixtime_lt_of_dtLt a b ha hb
  · intro h
    rcases dtLt_trichotomy a b with h1 | h1 | h1
    · exact h1
    · subst h1; omega
    · have := unixtime_lt_of_dtLt b a hb ha h1
      omega

theorem unixtime_inj (a b : DateTime) (ha : ValidDate a) (hb : ValidDate b)
    (h : a.unixtime = b.unixtime) : a = b := by
  rcases dtLt_trichotomy a b with h1 | h1 | h1
  · have := unixtime_lt_of_dtLt a b ha hb h1; omega
  · exact h1
  · have := unixtime_lt_of_dtLt b a hb ha h1; omega

theorem unixtime_ge_epoch (t : DateTime) : 946684800 ≤ t.unixtime := by
  unfold DateTime.unixtime
  omega

theorem ofUnix_unixtime (t : DateTime) (h : ValidDate t) : DateTime.ofUnix t.unixtime = t := by
  obtain ⟨h1, h2⟩ := ofUnix_spec t.unixtime (unixtime_ge_epoch t)
  exact unixtime_inj _ _ h2 h h1

theorem dtLt_same_ymd (a b : DateTime) (hy : a.year = b.year) (hm : a.month = b.month)
    (hd : a.day = b.day) (ham : a.minute < 60) (has : a.second < 60)
    (hbm : b.minute < 60) (hbs : b.second < 60) :
    dtLt a b ↔ secOfDay a < secOfDay b := by
  unfold dtLt secOfDay
  omega

theorem unixtime_same_ymd (a b : DateTime) (hy : a.year = b.year) (hm : a.month = b.month)
    (hd : a.day = b.day) : (a.unixtime < b.unixtime ↔ secOfDay a < secOfDay b) ∧
    (a.unixtime ≤ b.unixtime ↔ secOfDay a ≤ secOfDay b) := by
  have hdd : date2days (a.year - 2000) a.month a.day = date2days (b.year - 2000) b.month b.day := by
    rw [hy, hm, hd]
  rw [unixtime_decomp a, unixtime_decomp b]
  unfold secOfDay
  omega

/-! ### Order lemmas continued -/

theorem dtLt_trans (a b c : DateTime) (h1 : dtLt a b) (h2 : dtLt b c) : dtLt a c := by
  unfold dtLt at *
  omega

/-- Behaviour of the today-loop fold of `calculateNextFeeding`: the result is
the initial accumulator or an eligible candidate, never increases, and is a
lower bound (in the RTClib order) of all eligible candidates. -/
theorem calcToday_fold_spec (now todayBase : DateTime) :
    ∀ (l : List (Nat × ScheduledFeeding)) (acc : DateTime × Nat),
    ((l.foldl (calcTodayStep now todayBase) acc).1 = acc.1 ∨
      ∃ ie ∈ l, ie.2.enabled = true ∧ dtGt (getScheduleDateTime ie.2 todayBase) now ∧
        (l.foldl (calcTodayStep now todayBase) acc).1 = getScheduleDateTime ie.2 todayBase) ∧
    ((l.foldl (calcTodayStep now todayBase) acc).1 = acc.1 ∨
      dtLt (l.foldl (calcTodayStep now todayBase) acc).1 acc.1) ∧
    (∀ ie ∈ l, ie.2.enabled = true → dtGt (getScheduleDateTime ie.2 todayBase) now →
      ¬ dtLt (getScheduleDateTime ie.2 todayBase)
        (l.foldl (calcTodayStep now todayBase) acc).1) := by
  intro l
  induction l with
  | nil =>
    intro acc
    refine ⟨Or.inl rfl, Or.inl rfl, ?_⟩
    intro ie hie
    simp at hie
  | cons ie rest ih =>
    intro acc
    simp only [List.foldl_cons]
    by_cases he : ie.2.enabled = true
    · by_cases hc : dtGt (getScheduleDateTime ie.2 todayBase) now ∧
          dtLt (getScheduleDateTime ie.2 todayBase) acc.1
      · have hstep : calcTodayStep now todayBase acc ie =
            (getScheduleDateTime ie.2 todayBase, ie.1) := by
          simp [calcTodayStep, he, hc]
        rw [hstep]
        obtain ⟨ihm, ihmono, ihlb⟩ := ih (getScheduleDateTime ie.2 todayBase, ie.1)
        refine ⟨?_, ?_, ?_⟩
        · rcases ihm with h | ⟨je, hje, hj1, hj2, hj3⟩
          · exact Or.inr ⟨ie, List.mem_cons_self ie rest, he, hc.1, h⟩
          · exact Or.inr ⟨je, List.mem_cons_of_mem ie hje, hj1, hj2, hj3⟩
        · rcases ihmono with h | h
          · exact Or.inr (by rw [h]; exact hc.2)
          · exact Or.inr (dtLt_trans _ _ _ h hc.2)
        · intro je hje hj1 hj2
          rcases List.mem_cons.mp hje with rfl | hje2
          · intro habs
            rcases ihmono with h | h
            · rw [h] at habs; exact dtLt_irrefl _ habs
            · exact dtLt_irrefl _ (dtLt_trans _ _ _ h habs)
          · exact ihlb je hje2 hj1 hj2
      · have hstep : calcTodayStep now todayBase acc ie = acc := by
          simp only [calcTodayStep, he, if_true]
          rw [if_neg hc]
        rw [hstep]
        obtain ⟨ihm, ihmono, ihlb⟩ := ih acc
        refine ⟨?_, ihmono, ?_⟩
        · rcases ihm with h | ⟨je, hje, hj1, hj2, hj3⟩
          · exact Or.inl h
          · exact Or.inr ⟨je, List.mem_cons_of_mem ie hje, hj1, hj2, hj3⟩
        · intro je hje hj1 hj2
          rcases List.mem_cons.mp hje with rfl | hje2
          · have hnlt : ¬ dtLt (getScheduleDateTime je.2 todayBase) acc.1 := by
              intro habs
              exact hc ⟨hj2, habs⟩
            intro habs
            rcases ihmono with h | h
            · rw [h] at habs; exact hnlt habs
            · exact hnlt (dtLt_trans _ _ _ habs h)
          · exact ihlb je hje2 hj1 hj2
    · have hstep : calcTodayStep now todayBase acc ie = acc := by
        simp [calcTodayStep, he]
      rw [hstep]
      obtain ⟨ihm, ihmono, ihlb⟩ := ih acc
      refine ⟨?_, ihmono, ?_⟩
      · rcases ihm with h | ⟨je, hje, hj1, hj2, hj3⟩
        · exact Or.inl h
        · exact Or.inr ⟨je, List.mem_cons_of_mem ie hje, hj1, hj2, hj3⟩
      · intro je hje hj1 hj2
        rcases List.mem_cons.mp hje with rfl | hje2
        · exact absurd hj1 he
        · exact ihlb je hje2 hj1 hj2

/-- Behaviour of the fallback (tomorrow) fold of `calculateNextFeeding`. -/
theorem calcTomorrow_fold_spec (tomorrowBase : DateTime) :
    ∀ (l : List (Nat × ScheduledFeeding)) (acc : DateTime × Nat),
    ((l.foldl (calcTomorrowStep tomorrowBase) acc).1 = acc.1 ∨
      ∃ ie ∈ l, ie.2.enabled = true ∧
        (l.foldl (calcTomorrowStep tomorrowBase) acc).1 = getScheduleDateTime ie.2 tomorrowBase) ∧
    ((l.foldl (calcTomorrowStep tomorrowBase) acc).1 = acc.1 ∨
      dtLt (l.foldl (calcTomorrowStep tomorrowBase) acc).1 acc.1) ∧
    (∀ ie ∈ l, ie.2.enabled = true →
      ¬ dtLt (getScheduleDateTime ie.2 tomorrowBase)
        (l.foldl (calcTomorrowStep tomorrowBase) acc).1) := by
  intro l
  induction l with
  | nil =>
    intro acc
    refine ⟨Or.inl rfl, Or.inl rfl, ?_⟩
    intro ie hie
    simp at hie
  | cons ie rest ih =>
    intro acc
    simp only [List.foldl_cons]
    by_cases he : ie.2.enabled = true
    · by_cases hc : dtLt (getScheduleDateTime ie.2 tomorrowBase) acc.1
      · have hstep : calcTomorrowStep tomorrowBase acc ie =
            (getScheduleDateTime ie.2 tomorrowBase, ie.1) := by
          simp [calcTomorrowStep, he, hc]
        rw [hstep]
        obtain ⟨ihm, ihmono, ihlb⟩ := ih (getScheduleDateTime ie.2 tomorrowBase, ie.1)
        refine ⟨?_, ?_, ?_⟩
        · rcases ihm with h | ⟨je, hje, hj1, hj3⟩
          · exact Or.inr ⟨ie, List.mem_cons_self ie rest, he, h⟩
          · exact Or.inr ⟨je, List.mem_cons_of_mem ie hje, hj1, hj3⟩
        · rcases ihmono with h | h
          · exact Or.inr (by rw [h]; exact hc)
          · exact Or.inr (dtLt_trans _ _ _ h hc)
        · intro je hje hj1
          rcases List.mem_cons.mp hje with rfl | hje2
          · intro habs
            rcases ihmono with h | h
            · rw [h] at habs; exact dtLt_irrefl _ habs
            · exact dtLt_irrefl _ (dtLt_trans _ _ _ h habs)
          · exact ihlb je hje2 hj1
      · have hstep : calcTomorrowStep tomorrowBase acc ie = acc := by
          simp only [calcTomorrowStep, he, if_true]
          rw [if_neg hc]
        rw [hstep]
        obtain ⟨ihm, ihmono, ihlb⟩ := ih acc
        refine ⟨?_, ihmono, ?_⟩
        · rcases ihm with h | ⟨je, hje, hj1, hj3⟩
          · exact Or.inl h
          · exact Or.inr ⟨je, List.mem_cons_of_mem ie hje, hj1, hj3⟩
        · intro je hje hj1
          rcases List.mem_cons.mp hje with rfl | hje2
          · intro habs
            rcases ihmono with h | h
            · rw [h] at habs; exact hc habs
            · exact hc (dtLt_trans _ _ _ habs h)
          · exact ihlb je hje2 hj1
    · have hstep : calcTomorrowStep tomorrowBase acc ie = acc := by
        simp [calcTomorrowStep, he]
      rw [hstep]
      obtain ⟨ihm, ihmono, ihlb⟩ := ih acc
      refine ⟨?_, ihmono, ?_⟩
      · rcases ihm with h | ⟨je, hje, hj1, hj3⟩
        · exact Or.inl h
        · exact Or.inr ⟨je, List.mem_cons_of_mem ie hje, hj1, hj3⟩
      · intro je hje hj1
        rcases List.mem_cons.mp hje with rfl | hje2
        · exact absurd hj1 he
        · exact ihlb je hje2 hj1

/-- Behaviour of the fold of `updateNextScheduledTime`. -/
theorem upd_fold_spec (currentTime : DateTime) :
    ∀ (l : List ScheduledFeeding) (acc : DateTime),
    (l.foldl (updStep currentTime) acc = acc ∨
      ∃ s ∈ l, s.enabled = true ∧
        l.foldl (updStep currentTime) acc = updCandidate currentTime s) ∧
    (l.foldl (updStep currentTime) acc = acc ∨
      dtLt (l.foldl (updStep currentTime) acc) acc) ∧
    (∀ s ∈ l, s.enabled = true →
      ¬ dtLt (updCandidate currentTime s) (l.foldl (updStep currentTime) acc)) := by
  intro l
  induction l with
  | nil =>
    intro acc
    refine ⟨Or.inl rfl, Or.inl rfl, ?_⟩
    intro s hs
    simp at hs
  | cons s rest ih =>
    intro acc
    simp only [List.foldl_cons]
    by_cases he : s.enabled = true
    · by_cases hc : dtLt (updCandidate currentTime s) acc
      · have hstep : updStep currentTime acc s = updCandidate currentTime s := by
          simp [updStep, he, hc]
        rw [hstep]
        obtain ⟨ihm, ihmono, ihlb⟩ := ih (updCandidate currentTime s)
        refine ⟨?_, ?_, ?_⟩
        · rcases ihm with h | ⟨je, hje, hj1, hj3⟩
          · exact Or.inr ⟨s, List.mem_cons_self s rest, he, h⟩
          · exact Or.inr ⟨je, List.mem_cons_of_mem s hje, hj1, hj3⟩
        · rcases ihmono with h | h
          · exact Or.inr (by rw [h]; exact hc)
          · exact Or.inr (dtLt_trans _ _ _ h hc)
        · intro je hje hj1
          rcases List.mem_cons.mp hje with rfl | hje2
          · intro habs
            rcases ihmono with h | h
            · rw [h] at habs; exact dtLt_irrefl _ habs
            · exact dtLt_irrefl _ (dtLt_trans _ _ _ h habs)
          · exact ihlb je hje2 hj1
      · have hstep : updStep currentTime acc s = acc := by
          simp only [updStep, he, if_true]
          rw [if_neg hc]
        rw [hstep]
        obtain ⟨ihm, ihmono, ihlb⟩ := ih acc
        refine ⟨?_, ihmono, ?_⟩
        · rcases ihm with h | ⟨je, hje, hj1, hj3⟩
          · exact Or.inl h
          · exact Or.inr ⟨je, List.mem_cons_of_mem s hje, hj1, hj3⟩
        · intro je hje hj1
          rcases List.mem_cons.mp hje with rfl | hje2
          · intro habs
            rcases ihmono with h | h
            · rw [h] at habs; exact hc habs
            · exact hc (dtLt_trans _ _ _ habs h)
          · exact ihlb je hje2 hj1
    · have hstep : updStep currentTime acc s = acc := by
        simp [updStep, he]
      rw [hstep]
      obtain ⟨ihm, ihmono, ihlb⟩ := ih acc
      refine ⟨?_, ihmono, ?_⟩
      · rcases ihm with h | ⟨je, hje, hj1, hj3⟩
        · exact Or.inl h
        · exact Or.inr ⟨je, List.mem_cons_of_mem s hje, hj1, hj3⟩
      · intro je hje hj1
        rcases List.mem_cons.mp hje with rfl | hje2
        · exact absurd hj1 he
        · exact ihlb je hje2 hj1

theorem cand_unixtime_base (s : ScheduledFeeding) (b : DateTime) :
    (getScheduleDateTime s b).unixtime =
      946684800 + 86400 * date2days (b.year - 2000) b.month b.day
        + (3600 * s.hour + 60 * s.minute + s.second) := by
  rw [unixtime_decomp]
  dsimp only [getScheduleDateTime]

theorem now_unixtime_eq (now : DateTime) :
    now.unixtime = 946684800 + 86400 * date2days (now.year - 2000) now.month now.day
      + secOfDay now := by
  rw [unixtime_decomp]
  unfold secOfDay
  ring

/-- Comparison of two same-base candidates reduces to their instants. -/
theorem cand_lt_iff (b : DateTime) (s1 s2 : ScheduledFeeding)
    (h1 : ValidEntry s1) (h2 : ValidEntry s2) :
    dtLt (getScheduleDateTime s1 b) (getScheduleDateTime s2 b) ↔
      (getScheduleDateTime s1 b).unixtime < (getScheduleDateTime s2 b).unixtime := by
  obtain ⟨h1a, h1b, h1c⟩ := h1
  obtain ⟨h2a, h2b, h2c⟩ := h2
  rw [cand_unixtime_base, cand_unixtime_base]
  unfold dtLt getScheduleDateTime
  dsimp only
  omega

/-- `scheduleTime > now` against a today-based candidate reduces to instants. -/
theorem cand_gt_now_iff (now : DateTime) (s : ScheduledFeeding)
    (hnow : ValidDate now) (hs : ValidEntry s) :
    dtGt (getScheduleDateTime s ⟨now.year, now.month, now.day, 0, 0, 0⟩) now ↔
      now.unixtime < (getScheduleDateTime s ⟨now.year, now.month, now.day, 0, 0, 0⟩).unixtime := by
  obtain ⟨-, -, -, -, -, -, hn1, hn2⟩ := hnow
  obtain ⟨hs1, hs2, hs3⟩ := hs
  rw [cand_unixtime_base, now_unixtime_eq]
  unfold dtGt dtLt getScheduleDateTime secOfDay
  dsimp only
  omega

theorem calcNext_correct (fs : FeedingSchedule) (now : DateTime)
    (hnow : ValidDate now) (hyr : now.year ≤ 2097)
    (hent : ∀ e ∈ fs.schedules, ValidEntry e)
    (hsome : ∃ e ∈ fs.schedules, e.enabled = true) :
    IsMinOf ((calculateNextFeeding fs now).nextScheduledTime).unixtime
      (enabledInstants now fs.schedules) := by
  obtain ⟨e0, he0mem, he0en⟩ := hsome
  have hne : ¬ fs.schedules.length = 0 := by
    intro h
    rw [List.length_eq_zero] at h
    rw [h] at he0mem
    simp at he0mem
  have hmemEnum : ∀ e ∈ fs.schedules, ∃ i, (i, e) ∈ fs.schedules.enum := by
    intro e he
    have : e ∈ fs.schedules.enum.map Prod.snd := by
      rw [List.enum_map_snd]
      exact he
    obtain ⟨ie, hie, hsnd⟩ := List.mem_map.mp this
    exact ⟨ie.1, by rwa [show (ie.1, e) = ie from by rw [← hsnd]]⟩
  have hsndMem : ∀ ie ∈ fs.schedules.enum, ie.2 ∈ fs.schedules := by
    intro ie hie
    have := List.mem_map_of_mem Prod.snd hie
    rwa [List.enum_map_snd] at this
  have hnowymd : ValidDate now := hnow
  obtain ⟨hny, hnm1, hnm2, hnd1, hnd2, hnh, hnmin, hnsec⟩ := hnowymd
  -- abbreviations
  have hm := calcToday_fold_spec now ⟨now.year, now.month, now.day, 0, 0, 0⟩
      fs.schedules.enum (sentinel2099, 0)
  obtain ⟨hm1, hmono1, hlb1⟩ := hm
  have hresult : (calculateNextFeeding fs now).nextScheduledTime =
      (if (fs.schedules.enum.foldl
            (calcTodayStep now ⟨now.year, now.month, now.day, 0, 0, 0⟩)
            (sentinel2099, 0)).1.year = 2099
       then (fs.schedules.enum.foldl
              (calcTomorrowStep ⟨now.year, now.month, now.day + 1, 0, 0, 0⟩)
              (fs.schedules.enum.foldl
                (calcTodayStep now ⟨now.year, now.month, now.day, 0, 0, 0⟩)
                (sentinel2099, 0))).1
       else (fs.schedules.enum.foldl
              (calcTodayStep now ⟨now.year, now.month, now.day, 0, 0, 0⟩)
              (sentinel2099, 0)).1) := by
    unfold calculateNextFeeding
    rw [if_neg hne]
    dsimp only
    by_cases hcond : (fs.schedules.enum.foldl
        (calcTodayStep now ⟨now.year, now.month, now.day, 0, 0, 0⟩)
        (sentinel2099, 0)).1.year = 2099
    · rw [if_pos hcond, if_pos hcond]
    · rw [if_neg hcond, if_neg hcond]
  rcases hm1 with hsent | ⟨ie, hiemem, hieen, hiegt, hieeq⟩
  · -- no enabled entry lies strictly after now today: the sentinel survives
    have hnoS : ∀ e ∈ fs.schedules, e.enabled = true →
        ¬ dtGt (getScheduleDateTime e ⟨now.year, now.month, now.day, 0, 0, 0⟩) now := by
      intro e he heen hgt
      obtain ⟨i, hi⟩ := hmemEnum e he
      have := hlb1 (i, e) hi heen hgt
      rw [hsent] at this
      apply this
      unfold dtLt sentinel2099 getScheduleDateTime
      dsimp only
      omega
    have hcond : (fs.schedules.enum.foldl
        (calcTodayStep now ⟨now.year, now.month, now.day, 0, 0, 0⟩)
        (sentinel2099, 0)).1.year = 2099 := by
      rw [hsent]
      rfl
    rw [hresult, if_pos hcond]
    obtain ⟨hm2, hmono2, hlb2⟩ := calcTomorrow_fold_spec
        ⟨now.year, now.month, now.day + 1, 0, 0, 0⟩ fs.schedules.enum
        (fs.schedules.enum.foldl
          (calcTodayStep now ⟨now.year, now.month, now.day, 0, 0, 0⟩)
          (sentinel2099, 0))
    rcases hm2 with hsent2 | ⟨je, hjemem, hjeen, hjeeq⟩
    · -- impossible: e0 is enabled, and its tomorrow instant beats the sentinel
      obtain ⟨i0, hi0⟩ := hmemEnum e0 he0mem
      exfalso
      apply hlb2 (i0, e0) hi0 he0en
      rw [hsent2, hsent]
      unfold dtLt sentinel2099 getScheduleDateTime
      dsimp only
      omega
    · rw [hjeeq]
      have hspec : ∀ e ∈ fs.schedules, e.enabled = true → specNextInstant now e =
          (getScheduleDateTime e ⟨now.year, now.month, now.day + 1, 0, 0, 0⟩).unixtime := by
        intro e he heen
        have hngt := hnoS e he heen
        rw [cand_gt_now_iff now e hnow (hent e he)] at hngt
        unfold specNextInstant
        rw [if_pos (by omega)]
        rw [cand_unixtime_base, cand_unixtime_base]
        dsimp only
        rw [date2days_day_succ (now.year - 2000) now.month now.day hnd1]
        ring
      constructor
      · unfold enabledInstants
        apply List.mem_map.mpr
        refine ⟨je.2, List.mem_filter.mpr ⟨hsndMem je hjemem, by simpa using hjeen⟩, ?_⟩
        rw [hspec je.2 (hsndMem je hjemem) hjeen]
      · intro u hu
        unfold enabledInstants at hu
        obtain ⟨e, hef, heq⟩ := List.mem_map.mp hu
        have hee := List.mem_filter.mp hef
        have heen : e.enabled = true := by simpa using hee.2
        obtain ⟨i, hi⟩ := hmemEnum e hee.1
        have hnl := hlb2 (i, e) hi heen
        rw [hjeeq] at hnl
        rw [← heq, hspec e hee.1 heen]
        have hiff := cand_lt_iff ⟨now.year, now.month, now.day + 1, 0, 0, 0⟩ e je.2
          (hent e hee.1) (hent je.2 (hsndMem je hjemem))
        rw [hiff] at hnl
        omega
  · -- an enabled entry after now exists today; the today loop won
    have hyear : (fs.schedules.enum.foldl
        (calcTodayStep now ⟨now.year, now.month, now.day, 0, 0, 0⟩)
        (sentinel2099, 0)).1.year = now.year := by
      rw [hieeq]
      rfl
    have hcond : ¬ (fs.schedules.enum.foldl
        (calcTodayStep now ⟨now.year, now.month, now.day, 0, 0, 0⟩)
        (sentinel2099, 0)).1.year = 2099 := by
      rw [hyear]
      omega
    rw [hresult, if_neg hcond, hieeq]
    have hieval : ValidEntry ie.2 := hent ie.2 (hsndMem ie hiemem)
    have hgtiff := (cand_gt_now_iff now ie.2 hnow hieval).mp hiegt
    have hspecie : specNextInstant now ie.2 =
        (getScheduleDateTime ie.2 ⟨now.year, now.month, now.day, 0, 0, 0⟩).unixtime := by
      unfold specNextInstant
      rw [if_neg (by omega)]
    constructor
    · unfold enabledInstants
      apply List.mem_map.mpr
      exact ⟨ie.2, List.mem_filter.mpr ⟨hsndMem ie hiemem, by simpa using hieen⟩,
        by rw [hspecie]⟩
    · intro u hu
      unfold enabledInstants at hu
      obtain ⟨e, hef, heq⟩ := List.mem_map.mp hu
      have hee := List.mem_filter.mp hef
      have heen : e.enabled = true := by simpa using hee.2
      have heval := hent e hee.1
      by_cases hgt : dtGt (getScheduleDateTime e ⟨now.year, now.month, now.day, 0, 0, 0⟩) now
      · obtain ⟨i, hi⟩ := hmemEnum e hee.1
        have hnl := hlb1 (i, e) hi heen hgt
        rw [hieeq] at hnl
        rw [cand_lt_iff ⟨now.year, now.month, now.day, 0, 0, 0⟩ e ie.2 heval hieval] at hnl
        have hspece : specNextInstant now e =
            (getScheduleDateTime e ⟨now.year, now.month, now.day, 0, 0, 0⟩).unixtime := by
          unfold specNextInstant
          have := (cand_gt_now_iff now e hnow heval).mp hgt
          rw [if_neg (by omega)]
        rw [← heq, hspece]
        omega
      · have hle : (getScheduleDateTime e ⟨now.year, now.month, now.day, 0, 0, 0⟩).unixtime
            ≤ now.unixtime := by
          have hiff := cand_gt_now_iff now e hnow heval
          have h2 : ¬ now.unixtime <
              (getScheduleDateTime e ⟨now.year, now.month, now.day, 0, 0, 0⟩).unixtime :=
            fun hc => hgt (hiff.mpr hc)
          omega
        have hspece : specNextInstant now e =
            (getScheduleDateTime e ⟨now.year, now.month, now.day, 0, 0, 0⟩).unixtime + 86400 := by
          unfold specNextInstant
          rw [if_pos (by omega)]
        rw [← heq, hspece]
        -- both candidates live on the same day; one extra day dominates
        obtain ⟨hi1, hi2, hi3⟩ := hieval
        obtain ⟨he1, he2, he3⟩ := heval
        rw [cand_unixtime_base, cand_unixtime_base]
        omega

/-- The candidate of `updateNextScheduledTime` is a valid date whose instant
is exactly the specification's per-entry next occurrence. -/
theorem updCandidate_spec (now : DateTime) (s : ScheduledFeeding)
    (hnow : ValidDate now) (hs : ValidEntry s) :
    (updCandidate now s).unixtime = specNextInstant now s ∧
      ValidDate (updCandidate now s) := by
  obtain ⟨hny, hnm1, hnm2, hnd1, hnd2, hnh, hnmin, hnsec⟩ := hnow
  obtain ⟨hs1, hs2, hs3⟩ := hs
  have hc0 : getScheduleDateTime s ⟨now.year, now.month, now.day, 0, 0, 0⟩ =
      (⟨now.year, now.month, now.day, s.hour, s.minute, s.second⟩ : DateTime) := rfl
  have hcond : dtLe (⟨now.year, now.month, now.day, s.hour, s.minute, s.second⟩ : DateTime) now
      ↔ (⟨now.year, now.month, now.day, s.hour, s.minute, s.second⟩ : DateTime).unixtime
        ≤ now.unixtime := by
    unfold dtLe dtLt
    rw [now_unixtime_eq, unixtime_decomp]
    unfold secOfDay
    dsimp only
    omega
  unfold updCandidate specNextInstant
  rw [hc0]
  by_cases h : dtLe (⟨now.year, now.month, now.day, s.hour, s.minute, s.second⟩ : DateTime) now
  · rw [if_pos h, if_pos (hcond.mp h)]
    have hep : 946684800 ≤
        (⟨now.year, now.month, now.day, s.hour, s.minute, s.second⟩ : DateTime).unixtime + 86400 := by
      have := unixtime_ge_epoch (⟨now.year, now.month, now.day, s.hour, s.minute, s.second⟩ : DateTime)
      omega
    obtain ⟨hu, hv⟩ := ofUnix_spec _ hep
    exact ⟨hu, hv⟩
  · rw [if_neg h, if_neg (fun hc => h (hcond.mpr hc))]
    refine ⟨rfl, ?_⟩
    exact ⟨hny, hnm1, hnm2, hnd1, hnd2, by dsimp only; omega, by dsimp only; omega,
      by dsimp only; omega⟩

/-- With the clock no later than year 2097, every update candidate stays
strictly below `DateTime(2099, 1, 1, 0, 0, 0)` as an instant. -/
theorem updCandidate_lt_2099 (now : DateTime) (s : ScheduledFeeding)
    (hnow : ValidDate now) (hyr : now.year ≤ 2097) (hs : ValidEntry s) :
    (updCandidate now s).unixtime < (⟨2099, 1, 1, 0, 0, 0⟩ : DateTime).unixtime := by
  obtain ⟨hu, -⟩ := updCandidate_spec now s hnow hs
  have hvK : ValidDate (⟨2098, 1, 1, 0, 0, 0⟩ : DateTime) := by decide
  have hlt : dtLt now ⟨2098, 1, 1, 0, 0, 0⟩ := by
    unfold dtLt
    dsimp only
    omega
  have hK := unixtime_lt_of_dtLt now ⟨2098, 1, 1, 0, 0, 0⟩ hnow hvK hlt
  have hKK : (⟨2098, 1, 1, 0, 0, 0⟩ : DateTime).unixtime + 172800 ≤
      (⟨2099, 1, 1, 0, 0, 0⟩ : DateTime).unixtime := by decide
  obtain ⟨hny, hnm1, hnm2, hnd1, hnd2, hnh, hnmin, hnsec⟩ := hnow
  obtain ⟨hs1, hs2, hs3⟩ := hs
  have hspecb : specNextInstant now s ≤ now.unixtime + 86399 + 86400 := by
    unfold specNextInstant
    rw [cand_unixtime_base, now_unixtime_eq]
    unfold secOfDay
    dsimp only
    split <;> omega
  omega

theorem valid_year_lt_2099 (t : DateTime) (hv : ValidDate t)
    (h : t.unixtime < (⟨2099, 1, 1, 0, 0, 0⟩ : DateTime).unixtime) : t.year < 2099 := by
  have hvs : ValidDate (⟨2099, 1, 1, 0, 0, 0⟩ : DateTime) := by decide
  have hlt := (dtLt_iff_unixtime_lt t _ hv hvs).mpr h
  unfold dtLt at hlt
  obtain ⟨h1, h2, h3, h4, h5, h6, h7, h8⟩ := hv
  dsimp only at hlt
  omega

theorem updNext_correct (fs : FeedingSchedule) (now : DateTime)
    (hnow : ValidDate now) (hyr : now.year ≤ 2097)
    (hent : ∀ e ∈ fs.schedules, ValidEntry e)
    (hsome : ∃ e ∈ fs.schedules, e.enabled = true) :
    IsMinOf ((updateNextScheduledTime fs now).nextScheduledTime).unixtime
      (enabledInstants now fs.schedules) := by
  obtain ⟨e0, he0mem, he0en⟩ := hsome
  obtain ⟨hm, hmono, hlb⟩ := upd_fold_spec now fs.schedules ⟨2099, 1, 1, 0, 0, 0⟩
  have hvs : ValidDate (⟨2099, 1, 1, 0, 0, 0⟩ : DateTime) := by decide
  rcases hm with hsent | ⟨s1, hs1mem, hs1en, hs1eq⟩
  · exfalso
    apply hlb e0 he0mem he0en
    rw [hsent]
    obtain ⟨-, hval0⟩ := updCandidate_spec now e0 hnow (hent e0 he0mem)
    exact (dtLt_iff_unixtime_lt _ _ hval0 hvs).mpr
      (updCandidate_lt_2099 now e0 hnow hyr (hent e0 he0mem))
  · obtain ⟨hu1, hval1⟩ := updCandidate_spec now s1 hnow (hent s1 hs1mem)
    have hylt : (fs.schedules.foldl (updStep now) (⟨2099, 1, 1, 0, 0, 0⟩ : DateTime)).year
        < 2099 := by
      rw [hs1eq]
      exact valid_year_lt_2099 _ hval1 (updCandidate_lt_2099 now s1 hnow hyr (hent s1 hs1mem))
    have hresult : (updateNextScheduledTime fs now).nextScheduledTime =
        fs.schedules.foldl (updStep now) (⟨2099, 1, 1, 0, 0, 0⟩ : DateTime) := by
      unfold updateNextScheduledTime
      rw [if_neg (by omega)]
    rw [hresult, hs1eq, hu1]
    constructor
    · unfold enabledInstants
      exact List.mem_map.mpr ⟨s1, List.mem_filter.mpr ⟨hs1mem, by simpa using hs1en⟩, rfl⟩
    · intro u hu
      unfold enabledInstants at hu
      obtain ⟨e, hef, heq⟩ := List.mem_map.mp hu
      have hee := List.mem_filter.mp hef
      have heen : e.enabled = true := by simpa using hee.2
      obtain ⟨hue, hvale⟩ := updCandidate_spec now e hnow (hent e hee.1)
      have hnl := hlb e hee.1 heen
      rw [hs1eq] at hnl
      have hnlt : ¬ (updCandidate now e).unixtime < (updCandidate now s1).unixtime :=
        fun hc => hnl ((dtLt_iff_unixtime_lt _ _ hvale hval1).mpr hc)
      rw [← heq, ← hue]
      omega

/-! ### Claim theorems -/

/-- C1: the claim says `executeFeeding` sets `lastCompletedFeeding` to the
current clock time and persists it.  The code instead records
`DateTime()` — the RTClib default 2000-01-01 00:00:00 — under the comment
`// Current time`, regardless of the clock: with the RTC at
2024-06-15 12:00:05, after executing the midday entry the recorded last
feeding is 2000-01-01 00:00:00 and the persisted `"last_feeding"` value is
946684800, not the current time. -/
theorem C1_executeFeeding_records_epoch_not_now :
    (executeFeeding stateDefaults true).lastCompletedFeeding = ⟨2000, 1, 1, 0, 0, 0⟩ ∧
    (executeFeeding stateDefaults true).lastCompletedFeeding ≠ (⟨2024, 6, 15, 12, 0, 5⟩ : DateTime) ∧
    kvGetU32 (executeFeeding stateDefaults true).kv "last_feeding" 0 = 946684800 ∧
    (⟨2024, 6, 15, 12, 0, 5⟩ : DateTime).unixtime = 1718452805 := by
  refine ⟨rfl, by decide, rfl, by decide⟩

/-- C6 counterexample: `FeedingSchedule::setTolerance(0)` and
`setMaxRecoveryHours(100)` are accepted and overwrite the fields, although 0
and 100 are outside `[1,120]` and `[1,72]`: the setters themselves reject
nothing. -/
theorem C6_counterexample_setters_accept_out_of_range :
    (setTolerance stateDefaults 0).toleranceMinutes = 0 ∧
    stateDefaults.toleranceMinutes = 30 ∧
    (setMaxRecoveryHours stateDefaults 100).maxRecoveryHours = 100 ∧
    stateDefaults.maxRecoveryHours = 12 := by
  refine ⟨rfl, rfl, rfl, rfl⟩

/-- C6 amended: the range validation lives in the callers, not in the
setters.  The serial `SCHEDULE TOLERANCE`/`RECOVERY` handlers and the web
API `POST /api/schedule/tolerance`/`recovery` handlers reject any value
outside `[1,120]` (respectively `[1,72]`) without calling the setter, so an
out-of-range request leaves the configuration unchanged; the setters
themselves assign unconditionally. -/
theorem C6_out_of_range_rejected_by_callers (fs : FeedingSchedule) (t h : Int)
    (ht : t < 1 ∨ 120 < t) (hh : h < 1 ∨ 72 < h) :
    consoleToleranceCommand fs t = fs ∧ apiSetTolerance fs t = (fs, false) ∧
    consoleRecoveryCommand fs h = fs ∧ apiSetRecovery fs h = (fs, false) := by
  unfold consoleToleranceCommand apiSetTolerance consoleRecoveryCommand apiSetRecovery
  refine ⟨?_, ?_, ?_, ?_⟩
  · rw [if_neg (by omega)]
  · rw [if_pos (by omega)]
  · rw [if_neg (by omega)]
  · rw [if_pos (by omega)]

/-- C6 witness: a tolerance request of 121 and a recovery request of 0 are
rejected with the state unchanged. -/
theorem C6_witness :
    ((121 : Int) < 1 ∨ (120 : Int) < 121) ∧ ((0 : Int) < 1 ∨ (72 : Int) < 0) ∧
    (consoleToleranceCommand stateDefaults 121 = stateDefaults ∧
      apiSetTolerance stateDefaults 121 = (stateDefaults, false) ∧
      consoleRecoveryCommand stateDefaults 0 = stateDefaults ∧
      apiSetRecovery stateDefaults 0 = (stateDefaults, false)) :=
  ⟨by decide, by decide,
    C6_out_of_range_rejected_by_callers stateDefaults 121 0 (by decide) (by decide)⟩

/-- C8: `shouldSyncNTP()` returns true exactly when the clock is invalid
(`isRTCValid` false: zero field or timestamp before 2000), merely outdated
(year before 2020), no sync timestamp is persisted, the clock reads earlier
than the persisted timestamp, or the elapsed seconds since the persisted
timestamp reach the configured interval (`syncIntervalMs / 1000`). -/
theorem C8_shouldSync_iff (rtcNow : DateTime) (lastSync syncIntervalMs : Nat) :
    shouldSyncNTP rtcNow lastSync syncIntervalMs = true ↔
      (isRTCValid rtcNow = false ∨ isRTCOutdated rtcNow = true ∨ lastSync = 0 ∨
        rtcNow.unixtime < lastSync ∨
        syncIntervalMs / 1000 ≤ rtcNow.unixtime - lastSync) := by
  unfold shouldSyncNTP
  by_cases h1 : isRTCValid rtcNow = true
  · rw [if_neg (by simp [h1])]
    by_cases h2 : isRTCOutdated rtcNow = true
    · rw [if_pos h2]
      simp [h2]
    · rw [if_neg h2]
      by_cases h3 : lastSync = 0
      · rw [if_pos h3]
        simp [h3]
      · rw [if_neg h3]
        by_cases h4 : lastSync ≤ rtcNow.unixtime
        · rw [if_pos h4]
          by_cases h5 : syncIntervalMs / 1000 ≤ rtcNow.unixtime - lastSync
          · rw [if_pos h5]
            simp [h5]
          · rw [if_neg h5]
            constructor
            · intro hc
              simp at hc
            · intro hc
              rcases hc with hc | hc | hc | hc | hc
              · rw [h1] at hc; simp at hc
              · exact absurd hc h2
              · exact absurd hc h3
              · omega
              · exact absurd hc h5
        · rw [if_neg h4]
          simp
          exact Or.inr (Or.inr (Or.inr (Or.inl (by omega))))
  · rw [if_pos (by simpa using h1)]
    simp
    exact Or.inl (by simpa using h1)

/-- C9 counterexample: a successful WorldTimeAPI fetch one second apart from
the RTC rewrites the clock although the difference is at most 2 seconds —
the 2-second guard exists only on the NTP path, not on the HTTP fallback
sources. -/
theorem C9_counterexample_http_always_writes :
    worldTimeAPIAdjust ⟨2024, 6, 15, 12, 0, 0⟩ ⟨2024, 6, 15, 12, 0, 1⟩
        = (⟨2024, 6, 15, 12, 0, 1⟩ : DateTime) ∧
    (⟨2024, 6, 15, 12, 0, 1⟩ : DateTime) ≠ (⟨2024, 6, 15, 12, 0, 0⟩ : DateTime) ∧
    (((⟨2024, 6, 15, 12, 0, 1⟩ : DateTime).unixtime : Int)
      - ((⟨2024, 6, 15, 12, 0, 0⟩ : DateTime).unixtime : Int)).natAbs ≤ 2 := by
  refine ⟨rfl, by decide, by decide⟩

/-- C9 amended: on the NTP path (`updateRTCFromNTP`) the clock is rewritten
exactly when the absolute difference exceeds 2 seconds and left unchanged
otherwise; the HTTP fallback paths (`getTimeFromWorldTimeAPI` and the other
three fallback providers) adjust the clock unconditionally on success. -/
theorem C9_ntp_guard_http_unconditional (rtcTime ntpTime parsedTime : DateTime)
    (hsmall : (((ntpTime.unixtime : Int) - (rtcTime.unixtime : Int)).natAbs ≤ 2)) :
    updateRTCFromNTP rtcTime ntpTime = rtcTime ∧
    worldTimeAPIAdjust rtcTime parsedTime = parsedTime := by
  constructor
  · unfold updateRTCFromNTP
    rw [if_neg (by omega)]
  · rfl

/-- C9 witness: an NTP reading 2 seconds ahead leaves the RTC unchanged,
while the same reading through the WorldTimeAPI path overwrites it. -/
theorem C9_witness :
    ((((⟨2024, 6, 15, 12, 0, 2⟩ : DateTime).unixtime : Int)
      - ((⟨2024, 6, 15, 12, 0, 0⟩ : DateTime).unixtime : Int)).natAbs ≤ 2) ∧
    (updateRTCFromNTP ⟨2024, 6, 15, 12, 0, 0⟩ ⟨2024, 6, 15, 12, 0, 2⟩
        = (⟨2024, 6, 15, 12, 0, 0⟩ : DateTime) ∧
      worldTimeAPIAdjust ⟨2024, 6, 15, 12, 0, 0⟩ ⟨2024, 6, 15, 12, 0, 2⟩
        = (⟨2024, 6, 15, 12, 0, 2⟩ : DateTime)) :=
  ⟨by decide, C9_ntp_guard_http_unconditional ⟨2024, 6, 15, 12, 0, 0⟩
    ⟨2024, 6, 15, 12, 0, 2⟩ ⟨2024, 6, 15, 12, 0, 2⟩ (by decide)⟩

/-- C7: `startFeeding(portions, recordInSchedule)` fails exactly when the
portion count is outside `[MIN_FOOD_PORTIONS, MAX_FOOD_PORTIONS] = [1, 20]`,
a feeding is already in progress, or the controller is not ready; a failed
call leaves every piece of state unchanged.  A successful call sets the
shared `feedingInProgress` flag, enables the 100 ms completion-poll task
(`tFeedingMonitor`), and starts the asynchronous move of
`portions * 2048` steps from the current position. -/
theorem C7_startFeeding_contract (sys : FeederSystem) (sched : FeedingSchedule)
    (now : DateTime) (portions : Nat) (recordInSchedule : Bool) :
    ((startFeeding sys sched now portions recordInSchedule).2.2 = false ↔
      (portions < 1 ∨ 20 < portions ∨ sys.feedingInProgress = true ∨
        controllerIsReady sys = false)) ∧
    ((startFeeding sys sched now portions recordInSchedule).2.2 = false →
      startFeeding sys sched now portions recordInSchedule = (sys, sched, false)) ∧
    ((startFeeding sys sched now portions recordInSchedule).2.2 = true →
      (startFeeding sys sched now portions recordInSchedule).1.feedingInProgress = true ∧
      (startFeeding sys sched now portions recordInSchedule).1.monitorEnabled = true ∧
      feedingMonitorIntervalMs = 100 ∧
      (startFeeding sys sched now portions recordInSchedule).1.motorTarget =
        sys.motorPosition + portions * 2048) := by
  unfold startFeeding
  by_cases h1 : portions < minFoodPortions ∨ maxFoodPortions < portions
  · rw [if_pos h1]
    refine ⟨?_, fun _ => rfl, ?_⟩
    · simp only [minFoodPortions, maxFoodPortions] at h1
      simp
      omega
    · intro hc
      simp at hc
  · rw [if_neg h1]
    by_cases h2 : sys.feedingInProgress
    · rw [if_pos h2]
      refine ⟨?_, fun _ => rfl, ?_⟩
      · simp
        exact Or.inr (Or.inr (Or.inl h2))
      · intro hc
        simp at hc
    · rw [if_neg h2]
      by_cases h3 : controllerIsReady sys = true
      · rw [if_neg (by simp [h3])]
        have hdis : dispenseFoodAsync sys portions =
            ({ sys with motorTarget := sys.motorPosition + portionsToSteps portions }, true) := by
          unfold dispenseFoodAsync
          have hinit : sys.controllerInitialized = true := by
            unfold controllerIsReady at h3
            exact ((Bool.and_eq_true _ _).mp h3).1
          rw [if_neg (by simp [hinit])]
          have hval : isValidPortionCount portions = true := by
            unfold isValidPortionCount minFoodPortions maxFoodPortions
            simp only [minFoodPortions, maxFoodPortions] at h1
            simp
            omega
          rw [if_neg (by simp [hval])]
        rw [hdis]
        refine ⟨?_, ?_, ?_⟩
        · constructor
          · intro hc
            simp at hc
          · intro hc
            simp only [minFoodPortions, maxFoodPortions] at h1
            rcases hc with hc | hc | hc | hc
            · omega
            · omega
            · exact absurd hc h2
            · rw [h3] at hc; simp at hc
        · intro hc
          simp at hc
        · intro hc
          refine ⟨rfl, rfl, rfl, ?_⟩
          show sys.motorPosition + portionsToSteps portions = sys.motorPosition + portions * 2048
          unfold portionsToSteps clampPortions stepsPerRevolution minFoodPortions maxFoodPortions
          simp only [minFoodPortions, maxFoodPortions] at h1
          rw [if_neg (by omega), if_neg (by omega)]
      · rw [if_pos (by simpa using h3)]
        refine ⟨?_, fun _ => rfl, ?_⟩
        · simp
          exact Or.inr (Or.inr (Or.inr (by simpa using h3)))
        · intro hc
          simp at hc

/-- C7 witness: a 3-portion manual feeding on a ready, idle system starts
successfully, arms the 100 ms monitor and targets 3 × 2048 steps. -/
theorem C7_witness :
    (startFeeding sysReady stateDefaults ⟨2024, 6, 15, 12, 0, 5⟩ 3 false).2.2 = true ∧
    ((startFeeding sysReady stateDefaults ⟨2024, 6, 15, 12, 0, 5⟩ 3 false).1.feedingInProgress
        = true ∧
      (startFeeding sysReady stateDefaults ⟨2024, 6, 15, 12, 0, 5⟩ 3 false).1.monitorEnabled
        = true ∧
      feedingMonitorIntervalMs = 100 ∧
      (startFeeding sysReady stateDefaults ⟨2024, 6, 15, 12, 0, 5⟩ 3 false).1.motorTarget =
        sysReady.motorPosition + 3 * 2048) :=
  ⟨by decide,
    (C7_startFeeding_contract sysReady stateDefaults ⟨2024, 6, 15, 12, 0, 5⟩ 3 false).2.2
      (by decide)⟩

theorem kvPut_same (st : KVStore) (k : String) (v : KVVal) :
    kvPut st k v k = some v := by
  unfold kvPut
  rw [if_pos rfl]

theorem kvPut_other (st : KVStore) (k q : String) (v : KVVal) (h : q ≠ k) :
    kvPut st k v q = st q := by
  unfold kvPut
  rw [if_neg h]

theorem schedKey_ne_count : ∀ i < 10, ∀ t ∈ tagList, schedKey i t ≠ "sched_count" := by
  decide

theorem schedKey_inj : ∀ i < 10, ∀ j < 10, ∀ t1 ∈ tagList, ∀ t2 ∈ tagList,
    schedKey i t1 = schedKey j t2 → i = j ∧ t1 = t2 := by
  decide

theorem putEntry_other (st : KVStore) (i : Nat) (e : ScheduledFeeding) (q : String)
    (h : ∀ t ∈ tagList, q ≠ schedKey i t) : putEntry st i e q = st q := by
  unfold putEntry
  rw [kvPut_other _ _ _ _ (h "desc" (by decide)), kvPut_other _ _ _ _ (h "en" (by decide)),
    kvPut_other _ _ _ _ (h "p" (by decide)), kvPut_other _ _ _ _ (h "s" (by decide)),
    kvPut_other _ _ _ _ (h "m" (by decide)), kvPut_other _ _ _ _ (h "h" (by decide))]

theorem saveEntriesFrom_other (l : List ScheduledFeeding) : ∀ st i q,
    (∀ j t, i ≤ j → j < i + l.length → t ∈ tagList → q ≠ schedKey j t) →
    saveEntriesFrom st i l q = st q := by
  induction l with
  | nil => intro st i q _; rfl
  | cons e rest ih =>
      intro st i q h
      show saveEntriesFrom (putEntry st i e) (i + 1) rest q = st q
      have h2 : ∀ j t, i + 1 ≤ j → j < (i + 1) + rest.length → t ∈ tagList →
          q ≠ schedKey j t := by
        intro j t hj1 hj2 ht
        refine h j t (by omega) ?_ ht
        simp only [List.length_cons]
        omega
      have h1 : ∀ t ∈ tagList, q ≠ schedKey i t := by
        intro t ht
        refine h i t (Nat.le_refl i) ?_ ht
        simp only [List.length_cons]
        omega
      rw [ih (putEntry st i e) (i + 1) q h2, putEntry_other st i e q h1]

theorem kvGetUChar_congr (st1 st2 : KVStore) (k : String) (d : Nat)
    (h : st1 k = st2 k) : kvGetUChar st1 k d = kvGetUChar st2 k d := by
  unfold kvGetUChar
  rw [h]

theorem kvGetBool_congr (st1 st2 : KVStore) (k : String) (d : Bool)
    (h : st1 k = st2 k) : kvGetBool st1 k d = kvGetBool st2 k d := by
  unfold kvGetBool
  rw [h]

theorem kvGetString_congr (st1 st2 : KVStore) (k : String) (d : String)
    (h : st1 k = st2 k) : kvGetString st1 k d = kvGetString st2 k d := by
  unfold kvGetString
  rw [h]

theorem readEntry_congr (st1 st2 : KVStore) (i : Nat)
    (h : ∀ t ∈ tagList, st1 (schedKey i t) = st2 (schedKey i t)) :
    readEntry st1 i = readEntry st2 i := by
  unfold readEntry
  rw [kvGetUChar_congr st1 st2 _ _ (h "h" (by decide)),
    kvGetUChar_congr st1 st2 _ _ (h "m" (by decide)),
    kvGetUChar_congr st1 st2 _ _ (h "s" (by decide)),
    kvGetUChar_congr st1 st2 _ _ (h "p" (by decide)),
    kvGetBool_congr st1 st2 _ _ (h "en" (by decide)),
    kvGetString_congr st1 st2 _ _ (h "desc" (by decide))]

theorem readEntry_saveEntriesFrom_lt (st : KVStore) (i : Nat) (l : List ScheduledFeeding)
    (k : Nat) (hk : k < i) (hb : i + l.length ≤ 10) :
    readEntry (saveEntriesFrom st i l) k = readEntry st k := by
  apply readEntry_congr
  intro t ht
  apply saveEntriesFrom_other
  intro j t2 hj1 hj2 ht2 heq
  have hij := schedKey_inj k (by omega) j (by omega) t ht t2 ht2 heq
  exact absurd hij.1 (by omega)

theorem putEntry_get (st : KVStore) (i : Nat) (e : ScheduledFeeding) (hi : i < 10) :
    putEntry st i e (schedKey i "h") = some (KVVal.uc e.hour) ∧
    putEntry st i e (schedKey i "m") = some (KVVal.uc e.minute) ∧
    putEntry st i e (schedKey i "s") = some (KVVal.uc e.second) ∧
    putEntry st i e (schedKey i "p") = some (KVVal.uc e.portions) ∧
    putEntry st i e (schedKey i "en") = some (KVVal.b e.enabled) ∧
    putEntry st i e (schedKey i "desc") = some (KVVal.s e.description) := by
  have hne : ∀ t1 ∈ tagList, ∀ t2 ∈ tagList, t1 ≠ t2 →
      schedKey i t1 ≠ schedKey i t2 := by
    intro t1 h1 t2 h2 hnet heq
    exact hnet (schedKey_inj i hi i hi t1 h1 t2 h2 heq).2
  unfold putEntry
  refine ⟨?_, ?_, ?_, ?_, ?_, ?_⟩
  · rw [kvPut_other _ _ _ _ (hne "h" (by decide) "desc" (by decide) (by decide)),
      kvPut_other _ _ _ _ (hne "h" (by decide) "en" (by decide) (by decide)),
      kvPut_other _ _ _ _ (hne "h" (by decide) "p" (by decide) (by decide)),
      kvPut_other _ _ _ _ (hne "h" (by decide) "s" (by decide) (by decide)),
      kvPut_other _ _ _ _ (hne "h" (by decide) "m" (by decide) (by decide)),
      kvPut_same]
  · rw [kvPut_other _ _ _ _ (hne "m" (by decide) "desc" (by decide) (by decide)),
      kvPut_other _ _ _ _ (hne "m" (by decide) "en" (by decide) (by decide)),
      kvPut_other _ _ _ _ (hne "m" (by decide) "p" (by decide) (by decide)),
      kvPut_other _ _ _ _ (hne "m" (by decide) "s" (by decide) (by decide)),
      kvPut_same]
  · rw [kvPut_other _ _ _ _ (hne "s" (by decide) "desc" (by decide) (by decide)),
      kvPut_other _ _ _ _ (hne "s" (by decide) "en" (by decide) (by decide)),
      kvPut_other _ _ _ _ (hne "s" (by decide) "p" (by decide) (by decide)),
      kvPut_same]
  · rw [kvPut_other _ _ _ _ (hne "p" (by decide) "desc" (by decide) (by decide)),
      kvPut_other _ _ _ _ (hne "p" (by decide) "en" (by decide) (by decide)),
      kvPut_same]
  · rw [kvPut_other _ _ _ _ (hne "en" (by decide) "desc" (by decide) (by decide)),
      kvPut_same]
  · rw [kvPut_same]

theorem take49_of_le (s : String) (h : s.length ≤ 49) : s.take 49 = s := by
  rw [String.take_eq]
  have hd : s.data.take 49 = s.data := List.take_of_length_le h
  rw [hd]

theorem readEntry_putEntry (st : KVStore) (i : Nat) (e : ScheduledFeeding) (hi : i < 10)
    (hdesc : e.description.length ≤ 49) :
    readEntry (putEntry st i e) i = e := by
  obtain ⟨hg1, hg2, hg3, hg4, hg5, hg6⟩ := putEntry_get st i e hi
  unfold readEntry kvGetUChar kvGetBool kvGetString
  rw [hg1, hg2, hg3, hg4, hg5, hg6]
  dsimp only
  rw [take49_of_le e.description hdesc]

theorem readEntry_saveEntriesFrom (l : List ScheduledFeeding) : ∀ st i k,
    i + l.length ≤ 10 → k < l.length → (∀ e ∈ l, e.description.length ≤ 49) →
    readEntry (saveEntriesFrom st i l) (i + k) = l.getD k emptySlot := by
  induction l with
  | nil => intro st i k _ hk _; exact absurd hk (by simp)
  | cons e rest ih =>
      intro st i k hb hk hd
      have hb2 : i + (rest.length + 1) ≤ 10 := by
        simpa only [List.length_cons] using hb
      show readEntry (saveEntriesFrom (putEntry st i e) (i + 1) rest) (i + k) =
        (e :: rest).getD k emptySlot
      cases k with
      | zero =>
          show readEntry (saveEntriesFrom (putEntry st i e) (i + 1) rest) i =
            (e :: rest).getD 0 emptySlot
          rw [readEntry_saveEntriesFrom_lt (putEntry st i e) (i + 1) rest i
            (by omega) (by omega)]
          rw [readEntry_putEntry st i e (by omega) (hd e (by simp))]
          rfl
      | succ j =>
          show readEntry (saveEntriesFrom (putEntry st i e) (i + 1) rest) (i + (j + 1)) =
            (e :: rest).getD (j + 1) emptySlot
          have hidx : i + (j + 1) = (i + 1) + j := by omega
          rw [hidx, ih (putEntry st i e) (i + 1) j (by omega)
            (by simp only [List.length_cons] at hk; omega)
            (fun e2 he2 => hd e2 (by simp [he2]))]
          rfl

theorem saveSchedules_count (st : KVStore) (l : List ScheduledFeeding)
    (hb : l.length ≤ 10) :
    saveSchedulesToNVRAM st l "sched_count" = some (KVVal.uc l.length) := by
  unfold saveSchedulesToNVRAM
  rw [saveEntriesFrom_other l (kvPut st "sched_count" (KVVal.uc l.length)) 0 "sched_count"
    (fun j t _ hj ht => (schedKey_ne_count j (by omega) t ht).symm)]
  exact kvPut_same st "sched_count" (KVVal.uc l.length)

/-- C10: for any table of at most 10 records whose descriptions fit the
50-byte buffer (at most 49 characters, the `strncpy` limit), saving via
`saveSchedulesToNVRAM` (count plus each record's hour, minute, second,
portions, enabled flag and description) and reloading via
`loadSchedulesFromNVRAM` reproduces the table exactly, over any prior
key-value store contents. -/
theorem C10_save_load_roundtrip (st : KVStore) (l : List ScheduledFeeding)
    (hlen : l.length ≤ 10) (hdesc : ∀ e ∈ l, e.description.length ≤ 49) :
    loadSchedulesFromNVRAM (saveSchedulesToNVRAM st l) = l := by
  unfold loadSchedulesFromNVRAM
  have hcount : kvGetUChar (saveSchedulesToNVRAM st l) "sched_count" 255 = l.length := by
    unfold kvGetUChar
    rw [saveSchedules_count st l hlen]
  dsimp only
  rw [hcount, if_neg (by omega), if_neg (by omega)]
  apply List.ext_getElem
  · simp
  · intro k h1 h2
    rw [List.getElem_map, List.getElem_range]
    show readEntry (saveSchedulesToNVRAM st l) k = l[k]
    unfold saveSchedulesToNVRAM
    have hr := readEntry_saveEntriesFrom l (kvPut st "sched_count" (KVVal.uc l.length)) 0 k
      (by omega) h2 hdesc
    rw [Nat.zero_add] at hr
    rw [hr]
    exact List.getD_eq_getElem l emptySlot h2

/-- C10 witness: the default three-entry schedule table round-trips through
an empty store. -/
theorem C10_witness :
    defaultSchedules.length ≤ 10 ∧
    (∀ e ∈ defaultSchedules, e.description.length ≤ 49) ∧
    loadSchedulesFromNVRAM (saveSchedulesToNVRAM kvEmpty defaultSchedules) =
      defaultSchedules :=
  ⟨by decide, by decide,
    C10_save_load_roundtrip kvEmpty defaultSchedules (by decide) (by decide)⟩

/-! ### C5: one recovery dispatch per tick -/

theorem dayScan_head (ct lc : DateTime) (tol : Nat) (cd : DateTime) :
    ∀ sch, dayScan ct lc tol cd sch =
      ((sch.filter (eligibleMissed ct lc tol cd)).map
        (fun s => (s, getScheduleDateTime s cd))).head? := by
  intro sch
  induction sch with
  | nil => rfl
  | cons s rest ih =>
      show (if eligibleMissed ct lc tol cd s = true then some (s, getScheduleDateTime s cd)
        else dayScan ct lc tol cd rest) = _
      by_cases he : eligibleMissed ct lc tol cd s = true
      · rw [if_pos he, List.filter_cons_of_pos he, List.map_cons]
        rfl
      · rw [if_neg he, List.filter_cons_of_neg he]
        exact ih

theorem recoverScan_eq_head (ct lc : DateTime) (tol : Nat) (sch : List ScheduledFeeding) :
    ∀ fuel cd, recoverScan fuel ct lc tol sch cd =
      (eligibleOccurrences fuel ct lc tol sch cd).head? := by
  intro fuel
  induction fuel with
  | zero => intro cd; rfl
  | succ f ih =>
      intro cd
      simp only [recoverScan, eligibleOccurrences]
      by_cases hlt : dtLt cd ct
      · rw [if_pos hlt, if_pos hlt, dayScan_head ct lc tol cd sch]
        cases hfil : (sch.filter (eligibleMissed ct lc tol cd)).map
            (fun s => (s, getScheduleDateTime s cd)) with
        | nil =>
            rw [List.nil_append]
            exact ih (DateTime.ofUnix (cd.unixtime + 86400))
        | cons x xs => rfl
      · rw [if_neg hlt, if_neg hlt]
        rfl

/-- C5: one invocation of `recoverMissedFeedings` dispatches exactly the
first element (if any) of the full list of eligible missed occurrences over
the scanned window, and calls `executeFeeding` at most once: even when
several occurrences are simultaneously eligible, only the head of the list
is recovered and the rest are left for later ticks. -/
theorem C5_single_recovery_dispatch (fs : FeedingSchedule) (now : DateTime) (ok : Bool) :
    (recoverMissedFeedings fs now ok).2 =
      (eligibleOccurrences (recoveryFuel fs now) now fs.lastCompletedFeeding
        fs.toleranceMinutes fs.schedules (searchStartOf fs now)).head? ∧
    (recoverMissedFeedings fs now ok).1 =
      (match (eligibleOccurrences (recoveryFuel fs now) now fs.lastCompletedFeeding
          fs.toleranceMinutes fs.schedules (searchStartOf fs now)).head? with
        | some _ => executeFeeding fs ok
        | none => fs) := by
  unfold recoverMissedFeedings
  rw [recoverScan_eq_head now fs.lastCompletedFeeding fs.toleranceMinutes fs.schedules
    (recoveryFuel fs now) (searchStartOf fs now)]
  cases (eligibleOccurrences (recoveryFuel fs now) now fs.lastCompletedFeeding
      fs.toleranceMinutes fs.schedules (searchStartOf fs now)).head? with
  | none => exact ⟨rfl, rfl⟩
  | some hit => exact ⟨rfl, rfl⟩

/-! ### C3: agreement of the two next-occurrence computations -/

theorem IsMinOf_unique (v w : Nat) (l : List Nat) (hv : IsMinOf v l) (hw : IsMinOf w l) :
    v = w :=
  Nat.le_antisymm (hv.2 w hw.1) (hw.2 v hv.1)

/-- C3 counterexample: the two computations do not always leave the same
`nextScheduledTime` value.  (a) With the only entry disabled,
`calculateNextFeeding` leaves the sentinel 2099-12-31 23:59:59 while
`updateNextScheduledTime` maps its own surviving sentinel to
2000-01-01 00:00:00.  (b) On the last day of a month (2024-06-30, all of
today's defaults passed), `calculateNextFeeding` stores the unnormalized
date June 31 while `updateNextScheduledTime` stores the normalized July 1 —
the same instant under `unixtime`, but different field values. -/
theorem C3_counterexample_two_computations_disagree :
    (calculateNextFeeding stateDisabled ⟨2024, 6, 15, 9, 0, 0⟩).nextScheduledTime =
      sentinel2099 ∧
    (updateNextScheduledTime stateDisabled ⟨2024, 6, 15, 9, 0, 0⟩).nextScheduledTime =
      ⟨2000, 1, 1, 0, 0, 0⟩ ∧
    sentinel2099 ≠ (⟨2000, 1, 1, 0, 0, 0⟩ : DateTime) ∧
    (calculateNextFeeding stateDefaults ⟨2024, 6, 30, 19, 0, 0⟩).nextScheduledTime =
      ⟨2024, 6, 31, 8, 0, 0⟩ ∧
    (updateNextScheduledTime stateDefaults ⟨2024, 6, 30, 19, 0, 0⟩).nextScheduledTime =
      ⟨2024, 7, 1, 8, 0, 0⟩ ∧
    (⟨2024, 6, 31, 8, 0, 0⟩ : DateTime).unixtime =
      (⟨2024, 7, 1, 8, 0, 0⟩ : DateTime).unixtime := by
  refine ⟨by decide, by decide, by decide, by decide, by decide, by decide⟩

/-- C3 amended: on a table with at least one enabled entry (valid time
fields, a valid clock no later than year 2097), `calculateNextFeeding` and
`updateNextScheduledTime` compute the same next instant — both equal the
minimum enabled occurrence as a `unixtime`, though the stored field values
may differ (unnormalized versus normalized date) and the no-enabled-entry
sentinels differ (2099-12-31 23:59:59 versus 2000-01-01 00:00:00). -/
theorem C3_next_instant_agree (fs : FeedingSchedule) (now : DateTime)
    (hnow : ValidDate now) (hyr : now.year ≤ 2097)
    (hent : ∀ e ∈ fs.schedules, ValidEntry e)
    (hsome : ∃ e ∈ fs.schedules, e.enabled = true) :
    ((calculateNextFeeding fs now).nextScheduledTime).unixtime =
      ((updateNextScheduledTime fs now).nextScheduledTime).unixtime :=
  IsMinOf_unique _ _ (enabledInstants now fs.schedules)
    (calcNext_correct fs now hnow hyr hent hsome)
    (updNext_correct fs now hnow hyr hent hsome)

/-- C3 witness: on the default table at 2024-06-15 09:00:00 both
computations yield the same next instant. -/
theorem C3_witness :
    ValidDate ⟨2024, 6, 15, 9, 0, 0⟩ ∧
    (⟨2024, 6, 15, 9, 0, 0⟩ : DateTime).year ≤ 2097 ∧
    (∀ e ∈ stateDefaults.schedules, ValidEntry e) ∧
    (∃ e ∈ stateDefaults.schedules, e.enabled = true) ∧
    ((calculateNextFeeding stateDefaults ⟨2024, 6, 15, 9, 0, 0⟩).nextScheduledTime).unixtime =
      ((updateNextScheduledTime stateDefaults ⟨2024, 6, 15, 9, 0, 0⟩).nextScheduledTime).unixtime :=
  ⟨by decide, by decide, by decide, by decide,
    C3_next_instant_agree stateDefaults ⟨2024, 6, 15, 9, 0, 0⟩ (by decide) (by decide)
      (by decide) (by decide)⟩

theorem calc_schedules (fs : FeedingSchedule) (now : DateTime) :
    (calculateNextFeeding fs now).schedules = fs.schedules := by
  unfold calculateNextFeeding
  by_cases h : fs.schedules.length = 0
  · rw [if_pos h]
  · rw [if_neg h]

theorem upd_schedules (fs : FeedingSchedule) (ct : DateTime) :
    (updateNextScheduledTime fs ct).schedules = fs.schedules := by
  unfold updateNextScheduledTime
  dsimp only
  split <;> rfl

theorem executeFeeding_schedules (fs : FeedingSchedule) (ok : Bool) :
    (executeFeeding fs ok).schedules = fs.schedules := by
  unfold executeFeeding
  dsimp only
  split <;> rfl

theorem recover_schedules (fs : FeedingSchedule) (ct : DateTime) (ok : Bool) :
    ((recoverMissedFeedings fs ct ok).1).schedules = fs.schedules := by
  unfold recoverMissedFeedings
  cases hscan : recoverScan (recoveryFuel fs ct) ct fs.lastCompletedFeeding
      fs.toleranceMinutes fs.schedules (searchStartOf fs ct) with
  | none => rfl
  | some hit => exact executeFeeding_schedules fs ok

/-- C2 counterexample, two independent failures of the claim.  (a) Disabling
the whole table (`enableSchedule(false)`) does not recompute
`nextScheduledTime`: build a one-entry (08:00) table at 2024-06-15 12:00:00
(next occurrence 2024-06-16 08:00:00); at 2024-06-16 09:00:00, after
`enableSchedule(false)`, the stored value is still the already-passed
2024-06-16 08:00:00 and is not the minimum next-occurrence instant of the
(unchanged) entry table.  (b) Near the 2099 sentinel the recompute itself
fails on a valid clock: at 2098-12-31 23:00:00, with the default table (all
of today's entries passed), every candidate is a 2099-01-01 instant and
never beats `updateNextScheduledTime`'s 2099-01-01 00:00:00 initial value,
so the surviving sentinel is mapped to 2000-01-01 00:00:00 — not the
minimum enabled instant (2099-01-01 08:00:00). -/
theorem C2_counterexample_disable_keeps_stale_next :
    ((enableSchedule ((addSchedule stateEmpty ⟨2024, 6, 15, 12, 0, 0⟩ 8 0 0 1 "").1)
        ⟨2024, 6, 16, 9, 0, 0⟩ false).nextScheduledTime = ⟨2024, 6, 16, 8, 0, 0⟩ ∧
      ¬ IsMinOf ((enableSchedule ((addSchedule stateEmpty ⟨2024, 6, 15, 12, 0, 0⟩ 8 0 0 1 "").1)
          ⟨2024, 6, 16, 9, 0, 0⟩ false).nextScheduledTime).unixtime
        (enabledInstants ⟨2024, 6, 16, 9, 0, 0⟩
          (enableSchedule ((addSchedule stateEmpty ⟨2024, 6, 15, 12, 0, 0⟩ 8 0 0 1 "").1)
            ⟨2024, 6, 16, 9, 0, 0⟩ false).schedules)) ∧
    (ValidDate ⟨2098, 12, 31, 23, 0, 0⟩ ∧
      (processSchedules stateDefaults ⟨2098, 12, 31, 23, 0, 0⟩ true true).nextScheduledTime =
        ⟨2000, 1, 1, 0, 0, 0⟩ ∧
      ¬ IsMinOf ((processSchedules stateDefaults
            ⟨2098, 12, 31, 23, 0, 0⟩ true true).nextScheduledTime).unixtime
        (enabledInstants ⟨2098, 12, 31, 23, 0, 0⟩
          (processSchedules stateDefaults ⟨2098, 12, 31, 23, 0, 0⟩ true true).schedules)) := by
  refine ⟨⟨by decide, by decide⟩, by decide, by decide, by decide⟩

/-- C2 amended: for a valid clock with year at most 2097, every
schedule-table mutation that reaches the recompute — successful add, edit,
remove, per-index enable/disable (in range), the whole-table enable, and a
full processing tick — leaves `nextScheduledTime` at the minimum
next-occurrence instant (as a `unixtime`; the stored fields may be an
unnormalized date) among the enabled entries of the resulting table,
provided that table still has an enabled entry.  Outside this scope the
claim fails: the whole-table disable path (`enableSchedule(false)`) skips
the recompute, from 2098-12-31 on the 2099-01-01 sentinel collides with
real candidates and 2000-01-01 is stored instead (both in the
counterexample), and with no enabled entry a sentinel is stored. -/
theorem C2_next_occurrence_after_mutations (fs : FeedingSchedule) (now : DateTime)
    (hnow : ValidDate now) (hyr : now.year ≤ 2097)
    (hent : ∀ e ∈ fs.schedules, ValidEntry e) :
    (∀ h m s p d fs2, addSchedule fs now h m s p d = (fs2, true) →
      IsMinOf (fs2.nextScheduledTime.unixtime) (enabledInstants now fs2.schedules)) ∧
    (∀ i h m s p d fs2, editSchedule fs now i h m s p d = (fs2, true) →
      (∃ e ∈ fs2.schedules, e.enabled = true) →
      IsMinOf (fs2.nextScheduledTime.unixtime) (enabledInstants now fs2.schedules)) ∧
    (∀ i fs2, removeSchedule fs now i = (fs2, true) →
      (∃ e ∈ fs2.schedules, e.enabled = true) →
      IsMinOf (fs2.nextScheduledTime.unixtime) (enabledInstants now fs2.schedules)) ∧
    (∀ i b, i < fs.schedules.length →
      (∃ e ∈ (enableScheduleAtIndex fs now i b).schedules, e.enabled = true) →
      IsMinOf ((enableScheduleAtIndex fs now i b).nextScheduledTime).unixtime
        (enabledInstants now (enableScheduleAtIndex fs now i b).schedules)) ∧
    ((∃ e ∈ fs.schedules, e.enabled = true) →
      IsMinOf ((enableSchedule fs now true).nextScheduledTime).unixtime
        (enabledInstants now fs.schedules)) ∧
    (fs.scheduleEnabled = true → fs.schedules.length ≠ 0 → fs.feedingInProgress = false →
      (∃ e ∈ fs.schedules, e.enabled = true) →
      ∀ ok1 ok2, IsMinOf ((processSchedules fs now ok1 ok2).nextScheduledTime).unixtime
        (enabledInstants now fs.schedules)) := by
  refine ⟨?_, ?_, ?_, ?_, ?_, ?_⟩
  · intro h m s p d fs2 heq
    unfold addSchedule at heq
    by_cases hfull : 10 ≤ fs.schedules.length
    · rw [if_pos hfull] at heq
      exact Bool.noConfusion (congrArg Prod.snd heq)
    · rw [if_neg hfull] at heq
      by_cases hval : 23 < h ∨ 59 < m ∨ 59 < s ∨ p < 1 ∨ 10 < p
      · rw [if_pos hval] at heq
        exact Bool.noConfusion (congrArg Prod.snd heq)
      · rw [if_neg hval] at heq
        injection heq with h1 h2
        subst h1
        rw [calc_schedules]
        refine calcNext_correct _ now hnow hyr ?_ ?_
        · intro e he
          rcases List.mem_append.1 he with h3 | h3
          · exact hent e h3
          · have h4 : e = ⟨h, m, s, p, true, d.take 49⟩ := by simpa using h3
            rw [h4]
            have hv2 := hval
            push_neg at hv2
            refine ⟨?_, ?_, ?_⟩ <;> (dsimp only; omega)
        · exact ⟨⟨h, m, s, p, true, d.take 49⟩,
            List.mem_append.2 (Or.inr (by simp)), rfl⟩
  · intro i h m s p d fs2 heq hsome2
    unfold editSchedule at heq
    by_cases hidx : fs.schedules.length ≤ i
    · rw [if_pos hidx] at heq
      exact Bool.noConfusion (congrArg Prod.snd heq)
    · rw [if_neg hidx] at heq
      by_cases hval : 23 < h ∨ 59 < m ∨ 59 < s ∨ p < 1 ∨ 10 < p
      · rw [if_pos hval] at heq
        exact Bool.noConfusion (congrArg Prod.snd heq)
      · rw [if_neg hval] at heq
        injection heq with h1 h2
        subst h1
        rw [calc_schedules]
        rw [calc_schedules] at hsome2
        refine calcNext_correct _ now hnow hyr ?_ hsome2
        intro e he
        rcases List.mem_or_eq_of_mem_set he with h3 | h3
        · exact hent e h3
        · rw [h3]
          have hv2 := hval
          push_neg at hv2
          refine ⟨?_, ?_, ?_⟩ <;> (dsimp only; omega)
  · intro i fs2 heq hsome2
    unfold removeSchedule at heq
    by_cases hidx : fs.schedules.length ≤ i
    · rw [if_pos hidx] at heq
      exact Bool.noConfusion (congrArg Prod.snd heq)
    · rw [if_neg hidx] at heq
      injection heq with h1 h2
      subst h1
      rw [calc_schedules]
      rw [calc_schedules] at hsome2
      refine calcNext_correct _ now hnow hyr ?_ hsome2
      intro e he
      exact hent e (List.mem_of_mem_eraseIdx he)
  · intro i b hidx hsome2
    have hres : enableScheduleAtIndex fs now i b =
        calculateNextFeeding
          { fs with
            schedules := fs.schedules.set i
              { fs.schedules.getD i emptySlot with enabled := b },
            kv := saveSchedulesToNVRAM fs.kv
              (fs.schedules.set i
                { fs.schedules.getD i emptySlot with enabled := b }) } now := by
      unfold enableScheduleAtIndex
      rw [if_neg (by omega)]
    rw [hres] at hsome2 ⊢
    rw [calc_schedules] at hsome2 ⊢
    refine calcNext_correct _ now hnow hyr ?_ hsome2
    intro e he
    rcases List.mem_or_eq_of_mem_set he with h3 | h3
    · exact hent e h3
    · rw [h3]
      have hold : fs.schedules.getD i emptySlot ∈ fs.schedules := by
        rw [List.getD_eq_getElem fs.schedules emptySlot (by omega)]
        exact List.getElem_mem _
      obtain ⟨hv1, hv2, hv3⟩ := hent _ hold
      exact ⟨hv1, hv2, hv3⟩
  · intro hsome2
    have hres : enableSchedule fs now true =
        calculateNextFeeding { fs with scheduleEnabled := true } now := rfl
    rw [hres]
    exact calcNext_correct { fs with scheduleEnabled := true } now hnow hyr hent hsome2
  · intro hen hlen hprog hsome2 ok1 ok2
    unfold processSchedules
    rw [if_neg (fun hc => hc.elim (fun hne => hne hen) (fun hl => hlen hl))]
    rw [if_neg (by rw [hprog]; exact Bool.false_ne_true)]
    dsimp only
    by_cases htime : isTimeForFeeding now
        (((recoverMissedFeedings fs now ok1).1).schedules.getD
          ((recoverMissedFeedings fs now ok1).1).nextScheduleIndex emptySlot) = true
    · rw [if_pos htime]
      have hsch2 : (calculateNextFeeding
          (executeFeeding (recoverMissedFeedings fs now ok1).1 ok2) now).schedules =
          fs.schedules := by
        rw [calc_schedules, executeFeeding_schedules, recover_schedules]
      have hmin := updNext_correct
        (calculateNextFeeding (executeFeeding (recoverMissedFeedings fs now ok1).1 ok2) now)
        now hnow hyr (by rw [hsch2]; exact hent) (by rw [hsch2]; exact hsome2)
      rw [hsch2] at hmin
      exact hmin
    · rw [if_neg htime]
      have hsch2 : ((recoverMissedFeedings fs now ok1).1).schedules = fs.schedules :=
        recover_schedules fs now ok1
      have hmin := updNext_correct ((recoverMissedFeedings fs now ok1).1) now hnow hyr
        (by rw [hsch2]; exact hent) (by rw [hsch2]; exact hsome2)
      rw [hsch2] at hmin
      exact hmin

/-- C2 witness: adding a 12:00 entry to an empty table at
2024-06-15 09:00:00 succeeds and leaves `nextScheduledTime` at the minimum
enabled next-occurrence instant. -/
theorem C2_witness :
    ValidDate (⟨2024, 6, 15, 9, 0, 0⟩ : DateTime) ∧
    (⟨2024, 6, 15, 9, 0, 0⟩ : DateTime).year ≤ 2097 ∧
    (∀ e ∈ stateEmpty.schedules, ValidEntry e) ∧
    addSchedule stateEmpty ⟨2024, 6, 15, 9, 0, 0⟩ 12 0 0 1 "" =
      ((addSchedule stateEmpty ⟨2024, 6, 15, 9, 0, 0⟩ 12 0 0 1 "").1, true) ∧
    IsMinOf
      (((addSchedule stateEmpty ⟨2024, 6, 15, 9, 0, 0⟩ 12 0 0 1 "").1.nextScheduledTime).unixtime)
      (enabledInstants ⟨2024, 6, 15, 9, 0, 0⟩
        (addSchedule stateEmpty ⟨2024, 6, 15, 9, 0, 0⟩ 12 0 0 1 "").1.schedules) :=
  ⟨by decide, by decide, by decide, Prod.ext rfl (by decide),
    (C2_next_occurrence_after_mutations stateEmpty ⟨2024, 6, 15, 9, 0, 0⟩ (by decide)
        (by decide) (by decide)).1 12 0 0 1 ""
      ((addSchedule stateEmpty ⟨2024, 6, 15, 9, 0, 0⟩ 12 0 0 1 "").1)
      (Prod.ext rfl (by decide))⟩

/-! ### C4: bounds on recovery dispatch -/

theorem unixtime_lb_2001 (t : DateTime) (h : 2001 ≤ t.year) (hd : 1 ≤ t.day) :
    946684800 + 31622400 ≤ t.unixtime := by
  unfold DateTime.unixtime date2days
  omega

theorem dayScan_some (ct lc : DateTime) (tol : Nat) (cd : DateTime) :
    ∀ sch e T, dayScan ct lc tol cd sch = some (e, T) →
      e ∈ sch ∧ eligibleMissed ct lc tol cd e = true ∧ T = getScheduleDateTime e cd := by
  intro sch
  induction sch with
  | nil => intro e T h; exact Option.noConfusion h
  | cons s rest ih =>
      intro e T h
      have hshow : dayScan ct lc tol cd (s :: rest) =
          if eligibleMissed ct lc tol cd s = true then some (s, getScheduleDateTime s cd)
          else dayScan ct lc tol cd rest := rfl
      rw [hshow] at h
      by_cases he : eligibleMissed ct lc tol cd s = true
      · rw [if_pos he] at h
        injection h with h1
        injection h1 with h2 h3
        subst h2
        exact ⟨List.mem_cons_self s rest, he, h3.symm⟩
      · rw [if_neg he] at h
        obtain ⟨m1, m2, m3⟩ := ih e T h
        exact ⟨List.mem_cons_of_mem s m1, m2, m3⟩

theorem recoverScan_some (ct lc : DateTime) (tol : Nat) (sch : List ScheduledFeeding) :
    ∀ fuel cd e T, ValidDate cd →
      recoverScan fuel ct lc tol sch cd = some (e, T) →
      ∃ cd2, ValidDate cd2 ∧ e ∈ sch ∧ eligibleMissed ct lc tol cd2 e = true ∧
        T = getScheduleDateTime e cd2 := by
  intro fuel
  induction fuel with
  | zero => intro cd e T _ h; exact Option.noConfusion h
  | succ f ih =>
      intro cd e T hv h
      simp only [recoverScan] at h
      by_cases hlt : dtLt cd ct
      · rw [if_pos hlt] at h
        cases hscan : dayScan ct lc tol cd sch with
        | some hit =>
            rw [hscan] at h
            injection h with h1
            obtain ⟨m1, m2, m3⟩ := dayScan_some ct lc tol cd sch e T (by rw [hscan, h1])
            exact ⟨cd, hv, m1, m2, m3⟩
        | none =>
            rw [hscan] at h
            have hv2 : ValidDate (DateTime.ofUnix (cd.unixtime + 86400)) :=
              (ofUnix_spec (cd.unixtime + 86400)
                (by have := unixtime_ge_epoch cd; omega)).2
            exact ih (DateTime.ofUnix (cd.unixtime + 86400)) e T hv2 h
      · rw [if_neg hlt] at h
        exact Option.noConfusion h

/-- C4 counterexample: with `maxRecoveryHours = 1` and `toleranceMinutes =
120` (both in their documented ranges), at 2024-06-15 12:00:00 the scan
clamps its start to 11:00:00 but then checks the 10:30:00 occurrence of that
start day, which passes every per-entry guard: a feeding 5400 seconds old is
dispatched although `maxRecoveryHours` allows only 3600 — the window bound
is enforced only at whole-day granularity, not per occurrence. -/
theorem C4_counterexample_window_overrun :
    (recoverMissedFeedings stateRecovery ⟨2024, 6, 15, 12, 0, 0⟩ true).2 =
      some (⟨10, 30, 0, 2, true, ""⟩, ⟨2024, 6, 15, 10, 30, 0⟩) ∧
    stateRecovery.maxRecoveryHours * 3600 = 3600 ∧
    (⟨2024, 6, 15, 12, 0, 0⟩ : DateTime).unixtime -
      (⟨2024, 6, 15, 10, 30, 0⟩ : DateTime).unixtime = 5400 := by
  refine ⟨by decide, by decide, by decide⟩

/-- C4 amended: a recovery dispatch of occurrence `T` for entry `e` always
satisfies: `e` is an enabled table entry, `T` lies strictly between
`lastCompletedFeeding` and `now`, is at least 2 whole minutes old
(`minutesPast > 1`), and is at most `60*toleranceMinutes + 59` seconds old.
The claimed `maxRecoveryHours` age bound does not hold (see the
counterexample): the scan start is clamped only to whole days, so the
effective age limit is the tolerance, not `maxRecoveryHours*3600`. -/
theorem C4_recovery_dispatch_bounds (fs : FeedingSchedule) (now : DateTime) (ok : Bool)
    (hnow : ValidDate now) (hyr : 2001 ≤ now.year)
    (hlc : ValidDate fs.lastCompletedFeeding)
    (hent : ∀ e ∈ fs.schedules, ValidEntry e) (hrec : fs.maxRecoveryHours ≤ 72) :
    ∀ e T, (recoverMissedFeedings fs now ok).2 = some (e, T) →
      e ∈ fs.schedules ∧ e.enabled = true ∧
      fs.lastCompletedFeeding.unixtime < T.unixtime ∧
      T.unixtime < now.unixtime ∧
      120 ≤ now.unixtime - T.unixtime ∧
      now.unixtime - T.unixtime ≤ 60 * fs.toleranceMinutes + 59 := by
  intro e T hdisp
  unfold recoverMissedFeedings at hdisp
  cases hscan : recoverScan (recoveryFuel fs now) now fs.lastCompletedFeeding
      fs.toleranceMinutes fs.schedules (searchStartOf fs now) with
  | none => rw [hscan] at hdisp; exact Option.noConfusion hdisp
  | some hit =>
      rw [hscan] at hdisp
      injection hdisp with h1
      subst h1
      have hstart : ValidDate (searchStartOf fs now) := by
        unfold searchStartOf
        dsimp only
        by_cases hc : dtLt fs.lastCompletedFeeding
            (DateTime.ofUnix (now.unixtime - fs.maxRecoveryHours * 3600))
        · rw [if_pos hc]
          refine (ofUnix_spec (now.unixtime - fs.maxRecoveryHours * 3600) ?_).2
          have hlb := unixtime_lb_2001 now hyr hnow.2.2.2.1
          omega
        · rw [if_neg hc]
          exact hlc
      obtain ⟨cd2, hcd2, hmem, helig, hTeq⟩ := recoverScan_some now fs.lastCompletedFeeding
        fs.toleranceMinutes fs.schedules (recoveryFuel fs now) (searchStartOf fs now)
        e T hstart hscan
      have hvE := hent e hmem
      simp only [eligibleMissed, Bool.and_eq_true, decide_eq_true_eq] at helig
      have hen : e.enabled = true := helig.1
      have hge := helig.2.1.1
      have hle := helig.2.1.2
      have hmp1 := helig.2.2.1
      have hmp2 := helig.2.2.2
      have hge2 : ¬ ¬ dtLt (getScheduleDateTime e cd2) now := hge
      have hle2 : ¬ ¬ dtLt fs.lastCompletedFeeding (getScheduleDateTime e cd2) := hle
      have hT : ValidDate T := by
        rw [hTeq]
        obtain ⟨a1, a2, a3, a4, a5, a6, a7, a8⟩ := hcd2
        obtain ⟨b1, b2, b3⟩ := hvE
        refine ⟨?_, ?_, ?_, ?_, ?_, ?_, ?_, ?_⟩ <;> (dsimp only [getScheduleDateTime]; omega)
      have hu1 : fs.lastCompletedFeeding.unixtime < T.unixtime := by
        refine unixtime_lt_of_dtLt _ _ hlc hT ?_
        rw [hTeq]
        exact not_not.1 hle2
      have hu2 : T.unixtime < now.unixtime := by
        refine unixtime_lt_of_dtLt _ _ hT hnow ?_
        rw [hTeq]
        exact not_not.1 hge2
      rw [← hTeq] at hmp1 hmp2
      exact ⟨hmem, hen, hu1, hu2, by omega, by omega⟩

/-- C4 witness: the counterexample dispatch satisfies every amended bound
(90 minutes old, inside the 120-minute tolerance, strictly between the last
completed feeding and now). -/
theorem C4_witness :
    (ValidDate (⟨2024, 6, 15, 12, 0, 0⟩ : DateTime) ∧
      2001 ≤ (⟨2024, 6, 15, 12, 0, 0⟩ : DateTime).year ∧
      ValidDate stateRecovery.lastCompletedFeeding ∧
      (∀ e ∈ stateRecovery.schedules, ValidEntry e) ∧
      stateRecovery.maxRecoveryHours ≤ 72) ∧
    ((⟨10, 30, 0, 2, true, ""⟩ : ScheduledFeeding) ∈ stateRecovery.schedules ∧
      (⟨10, 30, 0, 2, true, ""⟩ : ScheduledFeeding).enabled = true ∧
      stateRecovery.lastCompletedFeeding.unixtime <
        (⟨2024, 6, 15, 10, 30, 0⟩ : DateTime).unixtime ∧
      (⟨2024, 6, 15, 10, 30, 0⟩ : DateTime).unixtime <
        (⟨2024, 6, 15, 12, 0, 0⟩ : DateTime).unixtime ∧
      120 ≤ (⟨2024, 6, 15, 12, 0, 0⟩ : DateTime).unixtime -
        (⟨2024, 6, 15, 10, 30, 0⟩ : DateTime).unixtime ∧
      (⟨2024, 6, 15, 12, 0, 0⟩ : DateTime).unixtime -
        (⟨2024, 6, 15, 10, 30, 0⟩ : DateTime).unixtime ≤
        60 * stateRecovery.toleranceMinutes + 59) :=
  ⟨⟨by decide, by decide, by decide, by decide, by decide⟩,
    C4_recovery_dispatch_bounds stateRecovery ⟨2024, 6, 15, 12, 0, 0⟩ true (by decide)
      (by decide) (by decide) (by decide) (by decide)
      ⟨10, 30, 0, 2, true, ""⟩ ⟨2024, 6, 15, 10, 30, 0⟩ (by decide)⟩

end FishFeeder
